import Mathlib

/-!
Verification development for the docorm document-persistence engine.

The TypeScript sources are shallowly embedded: JSON documents become an
inductive `Value` type, fallible code returns `Except DErr`, mutation of
shared schema nodes is modelled with an explicit heap of nodes addressed
by natural numbers, and generally-recursive functions take an explicit
fuel argument (`DErr.outOfFuel` stands for a computation that exhausts
every recursion budget, i.e. does not terminate).
-/

namespace Docorm

/-- JSON-like document values. JSON numbers are modelled as integers; none of
the verified claims depends on fractional numeric values. Object fields are
an association list in key-insertion order, as in a JS object. -/
inductive Value where
  | vnull
  | vbool (b : Bool)
  | vnum (n : Int)
  | vstr (s : String)
  | varr (items : List Value)
  | vobj (fields : List (String × Value))

/-- Errors surfaced by the engine: `InternalError` and `PersistenceError` from
errors.ts, plain `Error` objects, thrown strings, and an out-of-fuel marker
standing for non-termination of the fuel-indexed embedding. -/
inductive DErr where
  | internalErr (msg : String)
  | persistenceErr (msg : String)
  | plainErr (msg : String)
  | jsThrow (msg : String)
  | outOfFuel
deriving Repr, DecidableEq

/-- First-match lookup in a JS object association list (property read). -/
def objGet (fields : List (String × Value)) (k : String) : Option Value :=
  match fields with
  | [] => none
  | (k₀, v₀) :: rest => if k₀ = k then some v₀ else objGet rest k

/-- JS property assignment on an object: update the first occurrence in place
(preserving its position, as JS objects do) or append a new key. -/
def setKey (fields : List (String × Value)) (k : String) (v : Value) :
    List (String × Value) :=
  match fields with
  | [] => [(k, v)]
  | (k₀, v₀) :: rest => if k₀ = k then (k, v) :: rest else (k₀, v₀) :: setKey rest k v

/-- Embedding of lodash `_.omit(obj, key)`: drop the key, keep field order. -/
def objOmit (fields : List (String × Value)) (k : String) : List (String × Value) :=
  match fields with
  | [] => []
  | (k₀, v₀) :: rest => if k₀ = k then objOmit rest k else (k₀, v₀) :: objOmit rest k

/-- Embedding of lodash `_.assign(dst, src)` for one source object given as a
field list: JS property assignment of each source entry in order. -/
def jsAssign (dst : List (String × Value)) (src : List (String × Value)) :
    List (String × Value) :=
  src.foldl (fun acc f => setKey acc f.1 f.2) dst

/-! ### Property-path parsing (part of the SQL compiler module)

`propertyPathStringToArray` splits a dotted path and repeatedly strips a
trailing `[digits]` index from each component, exactly as the source's
regex loop `^(.*)\[(\d+)\]$` does. -/

/-- One element of a parsed property path: an object key or an array index. -/
inductive PathElem where
  | comp (s : String)
  | idx (n : Nat)
deriving Repr, DecidableEq

/-- Numeric value of a digit list (most significant first). -/
def natOfDigits (ds : List Char) : Nat :=
  ds.foldl (fun acc c => acc * 10 + (c.toNat - 48)) 0

/-- Split a character list on a separator character (kernel-reducible
counterpart of `String.splitOn` for one-character separators). -/
def splitChars (sep : Char) : List Char → List (List Char)
  | [] => [[]]
  | c :: rest =>
    match splitChars sep rest with
    | [] => [[c]]
    | h :: t => if c = sep then [] :: h :: t else (c :: h) :: t

/-- Split a string on a separator character. -/
def splitOnChar (s : String) (sep : Char) : List String :=
  (splitChars sep s.data).map String.mk

/-- Strip one trailing `[digits]` suffix from a component, returning the
remaining component text and the index, when the component matches the
source regex `^(.*)\[(\d+)\]$`. -/
def splitIndexSuffix (cs : List Char) : Option (List Char × Nat) :=
  if cs.getLast? = some ']' then
    let body := cs.dropLast
    let revDigits := body.reverse.takeWhile Char.isDigit
    let rest := body.reverse.drop revDigits.length
    match rest with
    | '[' :: before =>
      if revDigits.isEmpty then none
      else some (before.reverse, natOfDigits revDigits.reverse)
    | _ => none
  else none

/-- Peel all trailing `[n]` indices off one path component, innermost first,
mirroring the `while (match != null)` loop in the source. -/
def peelIndices (fuel : Nat) (cs : List Char) (acc : List Nat) : List Char × List Nat :=
  match fuel with
  | 0 => (cs, acc)
  | fuel + 1 =>
    match splitIndexSuffix cs with
    | some (cs₂, n) => peelIndices fuel cs₂ (n :: acc)
    | none => (cs, acc)

/-- Parse a dotted property path with array indices into path elements, the
structured core of the source's `propertyPathStringToArray`. -/
def stringToPathParts (pathStr : String) : List PathElem :=
  (splitOnChar pathStr '.').flatMap (fun component =>
    let (core, indices) := peelIndices component.length component.data []
    PathElem.comp (String.mk core) :: indices.map PathElem.idx)

/-- Embedding of `propertyPathStringToArray(pathStr, quoteNonIndexElements)`:
the source returns a mixed string/number array; here non-index elements are
already rendered (single-quoted when requested) and indices kept as numbers. -/
def propertyPathStringToArray (pathStr : String) (quoteNonIndexElements : Bool) :
    List PathElem :=
  (stringToPathParts pathStr).map (fun e =>
    match e with
    | .comp s => .comp (if quoteNonIndexElements then "\x27" ++ s ++ "\x27" else s)
    | .idx n => .idx n)

/-! ### Query algebra (queries.ts) -/

/-- Query expressions. A `constant` carries an arbitrary JSON value; the
runtime type guards distinguish single constants from constant lists by the
shape of the carried value, exactly as `Array.isArray` does in the source. -/
inductive QueryExpression where
  | coalesce (es : List QueryExpression)
  | constant (c : Value)
  | fullText
  | function (name : String) (parameters : List QueryExpression)
  | operator (op : String) (parameters : List QueryExpression)
  | path (p : String) (sqlType : Option String)
  | range (es : List QueryExpression)

/-- Query clauses: literals, boolean connectives, and simple clauses
(comparison / between / in / contains), which share one record shape with an
optional operator in the source. -/
inductive QueryClause where
  | qtrue
  | qfalse
  | qand (cs : List QueryClause)
  | qor (cs : List QueryClause)
  | qnot (c : QueryClause)
  | simple (operator : Option String) (l : QueryExpression) (r : QueryExpression)

/-- Runtime guard `queryExpressionIsCoalesce`. -/
def queryExpressionIsCoalesce : QueryExpression → Bool
  | .coalesce _ => true
  | _ => false

/-- Value shape test used by the constant guards (`Array.isArray`). -/
def valueIsArray : Value → Bool
  | .varr _ => true
  | _ => false

/-- Runtime guard `queryExpressionIsConstant`: a `constant` key whose value is
not an array. -/
def queryExpressionIsConstant : QueryExpression → Bool
  | .constant c => ¬ valueIsArray c
  | _ => false

/-- Runtime guard `queryExpressionIsConstantList`: a `constant` key whose
value is an array. -/
def queryExpressionIsConstantList : QueryExpression → Bool
  | .constant c => valueIsArray c
  | _ => false

/-- Runtime guard `queryExpressionIsFunction`. -/
def queryExpressionIsFunction : QueryExpression → Bool
  | .function _ _ => true
  | _ => false

/-- Runtime guard `queryExpressionIsOperator`. -/
def queryExpressionIsOperator : QueryExpression → Bool
  | .operator _ _ => true
  | _ => false

/-- Runtime guard `queryExpressionIsFullText` (`text == 'default'`). -/
def queryExpressionIsFullText : QueryExpression → Bool
  | .fullText => true
  | _ => false

/-- Runtime guard `queryExpressionIsPath`. -/
def queryExpressionIsPath : QueryExpression → Bool
  | .path _ _ => true
  | _ => false

/-- Runtime guard `queryExpressionIsRange`. -/
def queryExpressionIsRange : QueryExpression → Bool
  | .range _ => true
  | _ => false

/-- The `operator` property of a clause; `none` models JS `undefined`, which
is also what reading `.operator` off a connective clause yields. -/
def clauseOperator : QueryClause → Option String
  | .simple op _ _ => op
  | _ => none

/-- The `l` property of a clause (`undefined` on non-simple clauses). -/
def clauseL : QueryClause → Option QueryExpression
  | .simple _ l _ => some l
  | _ => none

/-- The `r` property of a clause (`undefined` on non-simple clauses). -/
def clauseR : QueryClause → Option QueryExpression
  | .simple _ _ r => some r
  | _ => none

/-- Runtime guard `queryClauseIsBetween`. -/
def queryClauseIsBetween (c : QueryClause) : Bool :=
  clauseOperator c = some "between"

/-- Runtime guard `queryClauseIsFullTextSearch`: operator `contains`, a
full-text left side and a constant-or-path right side. -/
def queryClauseIsFullTextSearch (c : QueryClause) : Bool :=
  decide (clauseOperator c = some "contains") &&
    (match clauseL c with
     | some l => queryExpressionIsFullText l
     | none => false) &&
    (match clauseR c with
     | some r => queryExpressionIsConstant r || queryExpressionIsPath r
     | none => false)

/-- Runtime guard `queryClauseIsComparison`: operator in the comparison list
(or absent) and not a full-text clause. -/
def queryClauseIsComparison (c : QueryClause) : Bool :=
  !queryClauseIsFullTextSearch c &&
    decide (clauseOperator c ∈
      [none, some "=", some "<", some ">", some "<=", some ">=", some "!="])

/-- Runtime guard `queryClauseIsIn`. -/
def queryClauseIsIn (c : QueryClause) : Bool :=
  clauseOperator c = some "in"

/-- Runtime guard `queryClauseIsAnd` (`clause.and != null`). -/
def queryClauseIsAnd : QueryClause → Bool
  | .qand _ => true
  | _ => false

/-- Runtime guard `queryClauseIsOr`. -/
def queryClauseIsOr : QueryClause → Bool
  | .qor _ => true
  | _ => false

/-- Runtime guard `queryClauseIsNot`. -/
def queryClauseIsNot : QueryClause → Bool
  | .qnot _ => true
  | _ => false

/-! ### The in-memory evaluator (queries.ts):
`calculateExpression` and `applyQuery`.

The evaluator runs in the host language on untyped values, so its
intermediate results can be a JSON value, `undefined`, or an expression
object returned unevaluated (the `coalesce` and `range` branches of
`calculateExpression` return their operand expressions as-is). `JsVal`
captures these possibilities. -/

/-- Result values of the in-memory evaluator. -/
inductive JsVal where
  | val (v : Value)
  | undef
  | exprObj (e : QueryExpression)
  | rangeObj (es : List QueryExpression)

/-- Lodash `_.get(context, path)` with a dotted/indexed string path;
missing properties yield `undefined`. -/
def jsGetParts (v : Value) (parts : List PathElem) : JsVal :=
  match parts with
  | [] => .val v
  | .comp k :: rest =>
    match v with
    | .vobj fields =>
      match objGet fields k with
      | some v₂ => jsGetParts v₂ rest
      | none => .undef
    | _ => .undef
  | .idx n :: rest =>
    match v with
    | .varr items =>
      match items.get? n with
      | some v₂ => jsGetParts v₂ rest
      | none => .undef
    | _ => (.undef)

/-- Lodash `_.get` on a string path. -/
def jsGet (v : Value) (path : String) : JsVal :=
  jsGetParts v (stringToPathParts path)

/-- Embedding of `calculateExpression(context, expression)`. The `coalesce`
branch returns its first operand expression unevaluated (every expression
object is non-null), the `range` branch returns the pair of operand
expressions, and function/operator expressions throw strings, all exactly as
in the source. -/
def calculateExpression (context : Value) : QueryExpression → Except DErr JsVal
  | .coalesce es =>
    match es with
    | e :: _ => .ok (.exprObj e)
    | [] => .ok (.val .vnull)
  | .constant c => .ok (.val c)
  | .fullText => .ok (.val (.vstr "default"))
  | .function _ _ =>
    .error (.jsThrow
      "Functions are not supported in query expressions outside a database context.")
  | .operator _ _ =>
    .error (.jsThrow
      "Operators are not supported in query expressions outside a database context.")
  | .path p _ => .ok (jsGet context p)
  | .range es => .ok (.rangeObj es)

/-- JS `Array.isArray` on an evaluator result. -/
def jsIsArray : JsVal → Bool
  | .val (.varr _) => true
  | .rangeObj _ => true
  | _ => false

/-- Length of an evaluator result viewed as a JS array. -/
def jsLength : JsVal → Nat
  | .val (.varr items) => items.length
  | .rangeObj es => es.length
  | _ => 0

/-- Element access on an evaluator result viewed as a JS array. -/
def jsIndex : JsVal → Nat → JsVal
  | .val (.varr items), n =>
    match items.get? n with
    | some v => .val v
    | none => .undef
  | .rangeObj es, n =>
    match es.get? n with
    | some e => .exprObj e
    | none => .undef
  | _, _ => (.undef)

/-- JS `typeof x == 'number'` on an evaluator result. -/
def jsIsNumber : JsVal → Bool
  | .val (.vnum _) => true
  | _ => false

/-- JS `typeof x == 'string'` on an evaluator result. -/
def jsIsString : JsVal → Bool
  | .val (.vstr _) => true
  | _ => false

mutual

/-- JS `toString()` of a JSON value (arrays join their elements with commas,
objects render as `[object Object]`). -/
def valueToString : Value → String
  | .vnull => "null"
  | .vbool b => if b then "true" else "false"
  | .vnum n => toString n
  | .vstr s => s
  | .varr items => String.intercalate "," (valueListToStrings items)
  | .vobj _ => "[object Object]"

/-- JS `toString()` of each value in a list. -/
def valueListToStrings : List Value → List String
  | [] => []
  | v :: rest => valueToString v :: valueListToStrings rest

end

/-- JS `toString()` of an evaluator result (used by the string case of
`between`). -/
def jsToString : JsVal → String
  | .val v => valueToString v
  | .undef => "undefined"
  | .exprObj _ => "[object Object]"
  | .rangeObj _ => "[object Object]"

/-- Numeric coercion used by JS loose comparison: numbers, booleans, null and
integer-literal strings coerce to a number, everything else is NaN (`none`).
This models the host language's primitive coercions, which the repository's
evaluator relies on implicitly. -/
def jsToNumber : JsVal → Option Int
  | .val (.vnum n) => some n
  | .val (.vbool b) => some (if b then 1 else 0)
  | .val .vnull => some 0
  | .val (.vstr s) =>
    let t := s.trim
    if t = "" then some 0
    else if t.data.all Char.isDigit then some (natOfDigits t.data)
    else if t.data.head? = some '-' ∧ t.data.tail ≠ [] ∧ t.data.tail.all Char.isDigit then
      some (-(natOfDigits t.data.tail : Int))
    else none
  | _ => none

/-- JS loose `<` on evaluator results: string/string compares
lexicographically, otherwise both sides coerce to numbers, and any NaN
operand makes the comparison false. -/
def jsLooseLt (a b : JsVal) : Bool :=
  match a, b with
  | .val (.vstr sa), .val (.vstr sb) => decide (sa < sb)
  | _, _ =>
    match jsToNumber a, jsToNumber b with
    | some na, some nb => decide (na < nb)
    | _, _ => false

/-- JS loose `<=` on evaluator results. -/
def jsLooseLe (a b : JsVal) : Bool :=
  match a, b with
  | .val (.vstr sa), .val (.vstr sb) => decide (sa ≤ sb)
  | _, _ =>
    match jsToNumber a, jsToNumber b with
    | some na, some nb => decide (na ≤ nb)
    | _, _ => false

/-- JS loose equality `==` on evaluator results: null and undefined are
mutually equal, same-type primitives compare structurally, mixed primitives
compare through numeric coercion, and object operands (always distinct
references here) compare unequal. -/
def jsLooseEq (a b : JsVal) : Bool :=
  match a, b with
  | .val .vnull, .val .vnull => true
  | .val .vnull, .undef => true
  | .undef, .val .vnull => true
  | .undef, .undef => true
  | .val .vnull, _ => false
  | _, .val .vnull => false
  | .undef, _ => false
  | _, .undef => false
  | .val (.vstr sa), .val (.vstr sb) => sa = sb
  | .val (.vbool ba), .val (.vbool bb) => ba = bb
  | _, _ =>
    match jsToNumber a, jsToNumber b with
    | some na, some nb => na = nb
    | _, _ => false

/-- Strict (SameValueZero) equality on primitives, as used by JS
`Array.prototype.includes`; object operands compare by reference and are
therefore unequal here. -/
def jsStrictEq (a b : JsVal) : Bool :=
  match a, b with
  | .val .vnull, .val .vnull => true
  | .undef, .undef => true
  | .val (.vbool ba), .val (.vbool bb) => ba = bb
  | .val (.vnum na), .val (.vnum nb) => na = nb
  | .val (.vstr sa), .val (.vstr sb) => sa = sb
  | _, _ => false

/-- JS `right.includes(left)` for an evaluator result viewed as an array. -/
def jsIncludes (r : JsVal) (l : JsVal) : Bool :=
  match r with
  | .val (.varr items) => items.any (fun v => jsStrictEq (.val v) l)
  | .rangeObj es => es.any (fun e => jsStrictEq (.exprObj e) l)
  | _ => false

/-- Embedding of `applyQuery(x, query)`, the in-memory clause evaluator.
The `and` and `or` branches translate the source's `for` loops literally:
both loops return inside their first iteration, so only the first sub-clause
is ever consulted, and an empty connective falls through to the function's
final `return false`. -/
def applyQuery (x : Value) : QueryClause → Except DErr Bool
  | .qtrue => .ok true
  | .qfalse => .ok false
  | .qand cs =>
    match cs with
    | [] => .ok false
    | c :: _ => do
      let b ← applyQuery x c
      if ¬ b then .ok false else .ok true
  | .qor cs =>
    match cs with
    | [] => .ok false
    | c :: _ => do
      let b ← applyQuery x c
      if b then .ok true else .ok false
  | .qnot c => do
    let b ← applyQuery x c
    .ok (¬ b)
  | .simple op l r =>
    let query := QueryClause.simple op l r
    if queryClauseIsBetween query then do
      let left ← calculateExpression x l
      let right ← calculateExpression x r
      if ¬ jsIsArray right ∨ jsLength right ≠ 2 then
        .error (.jsThrow
          "For \x22between\x22 queries, the right side must be a range (an array of size 2).")
      else if jsIsNumber left then
        if ¬ jsIsNumber (jsIndex right 0) ∨ ¬ jsIsNumber (jsIndex right 1) then
          .error (.jsThrow
            "For \x22between\x22 queries, the range must consist of numbers if the left side is a number.")
        else
          .ok (jsLooseLe (jsIndex right 0) left ∧ jsLooseLe left (jsIndex right 1))
      else if jsIsString left then
        .ok (jsLooseLe (.val (.vstr (jsToString (jsIndex right 0)))) left ∧
          jsLooseLe left (.val (.vstr (jsToString (jsIndex right 1)))))
      else
        .ok (jsLooseLe (jsIndex right 0) left ∧ jsLooseLe left (jsIndex right 1))
    else if queryClauseIsComparison query then do
      let left ← calculateExpression x l
      let right ← calculateExpression x r
      match op with
      | some "<" => .ok (jsLooseLt left right)
      | some ">" => .ok (jsLooseLt right left)
      | some "<=" => .ok (jsLooseLe left right)
      | some ">=" => .ok (jsLooseLe right left)
      | some "!=" => .ok (¬ jsLooseEq left right)
      | _ => .ok (jsLooseEq left right)
    else if queryClauseIsIn query then do
      let left ← calculateExpression x l
      let right ← calculateExpression x r
      if ¬ jsIsArray right then
        .error (.jsThrow "For \x22in\x22 queries, the right side must be an array.")
      else
        .ok (jsIncludes right left)
    else if queryClauseIsFullTextSearch query then
      .error (.jsThrow "Full text search queries are not supported outside a database context.")
    else
      .ok false

/-! ### Entity types and SQL compilation (entity-types.ts and the raw DAO)

Only the fields read by the embedded functions are modelled on
`EntityType`; its schema, callback and REST-configuration fields are not
consulted by any function below. -/

/-- A mapping of one schema property path to a dedicated SQL column. -/
structure PropertyMapping where
  column : String
  propertyPath : String
deriving Repr, DecidableEq

/-- Table mapping of an entity type. -/
structure EntityTypeMapping where
  table : String
  idColumn : String
  jsonColumn : Option String := none
  propertyMappings : List PropertyMapping := []
  readonly : Bool := false
deriving Repr, DecidableEq

/-- An entity type, reduced to the fields the raw DAO reads. -/
structure EntityType where
  name : String
  mapping : Option EntityTypeMapping := none
deriving Repr, DecidableEq

/-- A compiled SQL expression: text plus ordered parameter values. -/
structure SqlExpression where
  expression : String
  parameterValues : List Value

/-- A compiled SQL predicate: optional text plus ordered parameter values
(`none` models the source's `null` clause, meaning no predicate). -/
structure SqlClause where
  sqlClause : Option String
  parameterValues : List Value

/-- Operators accepted inside operator expressions (`ALLOWED_OPERATORS`). -/
def ALLOWED_OPERATORS : List String := ["AND", "OR", "NOT"]

/-- SQL types accepted for cast coercion (`SQL_TYPES`). -/
def SQL_TYPES : List String := ["boolean"]

/-- Render one parsed path element as the source's string/number array
elements render when joined into SQL text. -/
def pathElemToString : PathElem → String
  | .comp s => s
  | .idx n => toString n

/-- Embedding of `sqlColumnFromPath(path, mapping)`: a mapped column wins,
`_id` maps to `id`, and any other path becomes a JSON-traversal expression
into the JSON column (`col->...->>last`), failing when no JSON column exists. -/
def sqlColumnFromPath (path : String) (mapping : EntityTypeMapping) : Except DErr String :=
  match mapping.propertyMappings.find? (fun m => m.propertyPath = path) with
  | some propertyMapping => .ok propertyMapping.column
  | none =>
    if path = "_id" then .ok "id"
    else
      match mapping.jsonColumn with
      | none =>
        .error (.persistenceErr "Entity type has unmapped properties and lacks a JSON column.")
      | some jsonColumn =>
        let postgresComponents :=
          PathElem.comp ("\x22" ++ jsonColumn ++ "\x22") :: propertyPathStringToArray path true
        let strs := postgresComponents.map pathElemToString
        .ok (String.intercalate "->" strs.dropLast ++ "->>" ++ (strs.getLast?.getD ""))

/-- Embedding of `coerceType(sqlExpression, sqlType)`: wrap in a cast when the
declared SQL type is in the accepted list. -/
def coerceType (sqlExpression : String) (sqlType : Option String) : String :=
  match sqlType with
  | some t =>
    if t ≠ "" ∧ SQL_TYPES.contains t.toLower then "(" ++ sqlExpression ++ ")::" ++ t.toLower
    else sqlExpression
  | none => sqlExpression

/-- Test for a JS value that is `== null` (the constant-null check of the
comparison compiler). -/
def exprIsNullConstant : QueryExpression → Bool
  | .constant .vnull => true
  | _ => false

mutual

/-- Embedding of `sqlExpressionFromQueryExpression(expression, mapping,
parameterCount)`: constants become numbered placeholders (literal `NULL` for
null), paths become columns via `sqlColumnFromPath` with an optional cast,
the full-text marker becomes the JSON column cast to text, and
function/operator/coalesce/range expressions are translated structurally
with parameters concatenated left to right. -/
def sqlExpressionFromQueryExpression (expression : QueryExpression)
    (mapping : EntityTypeMapping) (parameterCount : Nat) : Except DErr SqlExpression :=
  match expression with
  | .constant c =>
    match c with
    | .vnull => .ok { expression := "NULL", parameterValues := [] }
    | _ => .ok { expression := "$" ++ toString (parameterCount + 1), parameterValues := [c] }
  | .path p sqlType => do
    let col ← sqlColumnFromPath p mapping
    .ok { expression := coerceType col sqlType, parameterValues := [] }
  | .fullText =>
    match mapping.jsonColumn with
    | none =>
      .error (.persistenceErr
        "Full-text search cannot be applied to an entity type that lacks a JSON column).")
    | some jsonColumn =>
      .ok { expression := jsonColumn ++ "::text", parameterValues := [] }
  | .function name parameters => do
    let (subexpressions, parameterValues) ←
      sqlExpressionListFromQueryExpressions parameters mapping parameterCount
    .ok { expression := name ++ "(" ++ String.intercalate ", " subexpressions ++ ")",
          parameterValues := parameterValues }
  | .coalesce es => do
    let (subexpressions, parameterValues) ←
      sqlExpressionListFromQueryExpressions es mapping parameterCount
    .ok { expression := "COALESCE(" ++ String.intercalate ", " subexpressions ++ ")",
          parameterValues := parameterValues }
  | .operator op parameters =>
    if ¬ ALLOWED_OPERATORS.contains op.toUpper then
      .error (.persistenceErr "Bad JSON query expression: Unknown operator")
    else do
      let (subexpressions, parameterValues) ←
        sqlExpressionListFromQueryExpressions parameters mapping parameterCount
      if op.toUpper = "NOT" then
        .ok { expression :=
                "(" ++ op.toUpper ++ " " ++ (subexpressions.headD "undefined") ++ ")",
              parameterValues := parameterValues }
      else
        .ok { expression :=
                "(" ++ String.intercalate (" " ++ op.toUpper ++ " ") subexpressions ++ ")",
              parameterValues := parameterValues }
  | .range es =>
    if es.length ≠ 2 then .error (.persistenceErr "Bad JSON query expression")
    else do
      let (subexpressions, parameterValues) ←
        sqlExpressionListFromQueryExpressions es mapping parameterCount
      .ok { expression := String.intercalate " AND " subexpressions,
            parameterValues := parameterValues }

/-- The sub-expression loop shared by the function/coalesce/operator/range
branches: compile each sub-expression, keep non-empty fragments, and advance
the parameter counter by each fragment's parameter count. -/
def sqlExpressionListFromQueryExpressions (es : List QueryExpression)
    (mapping : EntityTypeMapping) (parameterCount : Nat) :
    Except DErr (List String × List Value) :=
  match es with
  | [] => .ok ([], [])
  | e :: rest => do
    let sub ← sqlExpressionFromQueryExpression e mapping parameterCount
    let (ss, ps) ←
      sqlExpressionListFromQueryExpressions rest mapping
        (parameterCount + sub.parameterValues.length)
    .ok ((if sub.expression ≠ "" then [sub.expression] else []) ++ ss,
      sub.parameterValues ++ ps)

end

/-- JS truthiness of an optional string (`null`, `undefined` and the empty
string are falsy). -/
def optStrTruthy : Option String → Bool
  | some s => s ≠ ""
  | none => false

/-- Size of a list is positive (used by termination measures below). -/
theorem sizeOf_list_pos {α : Type} [SizeOf α] (l : List α) : 0 < sizeOf l := by
  cases l <;> simp_arith

mutual

/-- Embedding of `sqlQueryCriteriaClauseFromQueryClause(clause, mapping,
parameterCount)`: literal `false` compiles to the always-false predicate
`0 = 1`, absent/`true` to no predicate, connectives compile their
sub-clauses with short-circuit simplification, and a simple clause compiles
its two sides after canonicalizing a constant-vs-path comparison so the path
is on the left, with null-constant equality turned into `IS`/`IS NOT`. -/
def sqlQueryCriteriaClauseFromQueryClause (clause : Option QueryClause)
    (mapping : EntityTypeMapping) (parameterCount : Nat) : Except DErr SqlClause :=
  match clause with
  | none => .ok { sqlClause := none, parameterValues := [] }
  | some .qfalse => .ok { sqlClause := some "0 = 1", parameterValues := [] }
  | some .qtrue => .ok { sqlClause := none, parameterValues := [] }
  | some (.qand cs) => sqlConnective true cs mapping parameterCount
  | some (.qor cs) => sqlConnective false cs mapping parameterCount
  | some (.qnot c) => do
    let sub ← sqlQueryCriteriaClauseFromQueryClause (some c) mapping parameterCount
    if optStrTruthy sub.sqlClause then
      .ok { sqlClause := some ("NOT (" ++ sub.sqlClause.getD "" ++ ")"),
            parameterValues := sub.parameterValues }
    else
      .ok { sqlClause := some "0 = 1", parameterValues := [] }
  | some (.simple op l r) =>
    let query := QueryClause.simple op l r
    let swap : Bool :=
      ¬ queryClauseIsFullTextSearch query ∧
        queryExpressionIsConstant l ∧ queryExpressionIsPath r
    let l₂ := if swap then r else l
    let r₂ := if swap then l else r
    do
      let leftRes ← sqlExpressionFromQueryExpression l₂ mapping parameterCount
      let rightRes ←
        sqlExpressionFromQueryExpression r₂ mapping
          (parameterCount + leftRes.parameterValues.length)
      let leftExpression := leftRes.expression
      let rightExpression := rightRes.expression
      if leftExpression ≠ "" ∧ rightExpression ≠ "" then do
        let chosen : Option (String × (String → String) × (String → String)) ←
          match op with
          | some "contains" =>
            if (queryExpressionIsPath l₂ ∨ queryExpressionIsFullText l₂) ∧
                queryExpressionIsConstant r₂ ∧ ¬ exprIsNullConstant r₂ then
              .ok (some ("ILIKE",
                fun expr =>
                  "\x27%\x27 || regexp_replace(" ++ expr ++
                    ", \x27([%_])\x27, \x27\\\\\\1\x27, \x27g\x27) || \x27%\x27",
                id))
            else .ok none
          | some "like" => .ok (some ("LIKE", id, id))
          | some "=" =>
            if (queryExpressionIsPath l₂ ∧ exprIsNullConstant r₂) ∨
                (queryExpressionIsPath r₂ ∧ exprIsNullConstant l₂) then
              .ok (some ("IS", id, id))
            else .ok (some ("=", id, id))
          | none =>
            if (queryExpressionIsPath l₂ ∧ exprIsNullConstant r₂) ∨
                (queryExpressionIsPath r₂ ∧ exprIsNullConstant l₂) then
              .ok (some ("IS", id, id))
            else .ok (some ("=", id, id))
          | some "!=" =>
            if queryExpressionIsPath l₂ ∧ exprIsNullConstant r₂ then
              .ok (some ("IS NOT", id, id))
            else .ok (some ("!=", id, id))
          | some "~" => .ok (some ("~", id, id))
          | some ">=" => .ok (some (">=", id, id))
          | some ">" => .ok (some (">", id, id))
          | some "<" => .ok (some ("<", id, id))
          | some "<=" => .ok (some ("<=", id, id))
          | some "in" =>
            let nullInList : Bool :=
              match r₂ with
              | .constant (.varr items) =>
                items.any (fun v => match v with | .vnull => true | _ => false)
              | _ => false
            if queryExpressionIsConstantList r₂ ∧ nullInList then
              .ok (some ("=", fun expr => "ANY (" ++ expr ++ ")",
                fun sqlClause =>
                  "((" ++ leftExpression ++ " IS NULL) OR (" ++ sqlClause ++ "))"))
            else
              .ok (some ("=", fun expr => "ANY (" ++ expr ++ ")", id))
          | some "between" =>
            if ¬ queryExpressionIsRange r₂ then
              .error (.persistenceErr "Bad JSON query clause")
            else .ok (some ("BETWEEN", id, id))
          | some _ => .ok none
        match chosen with
        | some (operator, rightWrapper, clauseWrapper) =>
          .ok { sqlClause :=
                  some (clauseWrapper
                    (leftExpression ++ " " ++ operator ++ " " ++
                      rightWrapper rightExpression)),
                parameterValues := leftRes.parameterValues ++ rightRes.parameterValues }
        | none => .ok { sqlClause := none, parameterValues := [] }
      else
        .ok { sqlClause := none, parameterValues := [] }
termination_by sizeOf clause
decreasing_by all_goals simp_wf <;> omega

/-- The and/or sub-clause loop: compile each sub-clause (advancing the
parameter counter), then apply the source's short-circuit simplification:
an empty `and` is always true, an empty `or` is always false, and an `or`
containing an always-true sub-predicate is always true. -/
def sqlConnective (isAnd : Bool) (cs : List QueryClause)
    (mapping : EntityTypeMapping) (parameterCount : Nat) : Except DErr SqlClause := do
  let (sqlSubclauses, parameterValues) ← sqlSubclauseList cs mapping parameterCount
  if sqlSubclauses.length = 0 then
    if isAnd then .ok { sqlClause := none, parameterValues := [] }
    else .ok { sqlClause := some "0 = 1", parameterValues := [] }
  else if sqlSubclauses.contains none ∧ ¬ isAnd then
    .ok { sqlClause := none, parameterValues := [] }
  else
    .ok { sqlClause :=
            some ("(" ++
              String.intercalate (") " ++ (if isAnd then "AND" else "OR") ++ " (")
                (sqlSubclauses.filterMap id) ++ ")"),
          parameterValues := parameterValues }
termination_by sizeOf cs + 1
decreasing_by all_goals simp_wf

/-- Compile a list of sub-clauses, collecting their optional SQL fragments
and concatenating parameter values. -/
def sqlSubclauseList (cs : List QueryClause) (mapping : EntityTypeMapping)
    (parameterCount : Nat) : Except DErr (List (Option String) × List Value) :=
  match cs with
  | [] => .ok ([], [])
  | c :: rest => do
    let sub ← sqlQueryCriteriaClauseFromQueryClause (some c) mapping parameterCount
    let (ss, ps) ←
      sqlSubclauseList rest mapping (parameterCount + sub.parameterValues.length)
    .ok (sub.sqlClause :: ss, sub.parameterValues ++ ps)
termination_by sizeOf cs
decreasing_by
  all_goals simp_wf
  all_goals (rename_i t; have h := sizeOf_list_pos t; omega)

end

/-- Embedding of `makeSqlQueryCriteriaClauses(entityType, query)`: an entity
type with a JSON column gets a `_type` discriminator predicate combined by
`AND` with the compiled query predicate. -/
def makeSqlQueryCriteriaClauses (entityType : EntityType) (query : Option QueryClause) :
    Except DErr SqlClause :=
  match entityType.mapping with
  | none =>
    .error (.persistenceErr
      ("Cannot make SQL query for an unmapped entity type (" ++ entityType.name ++ "))."))
  | some mapping => do
    let entityTypeClause : Option String :=
      mapping.jsonColumn.map (fun j => "\x22" ++ j ++ "\x22->>\x27_type\x27 = $1")
    let parameterValues : List Value :=
      match mapping.jsonColumn with
      | some _ => [.vstr entityType.name]
      | none => []
    let res ← sqlQueryCriteriaClauseFromQueryClause query mapping parameterValues.length
    let allParameterValues := parameterValues ++ res.parameterValues
    let clauses := ([entityTypeClause, res.sqlClause].filterMap id).filter (fun s => s ≠ "")
    .ok { sqlClause :=
            if clauses.length > 0 then
              some ("(" ++ String.intercalate ") AND (" clauses ++ ")")
            else none,
          parameterValues := allParameterValues }

/-! ### The raw DAO (makeRawDao): count, fetch, delete

The database is abstracted as a function from SQL text and parameters to
rows; each operation additionally returns the list of database calls it
issued, which makes "no round trip was performed" a provable statement.
The cursor-stream variant of fetch (`options.stream`) is connection-pool
plumbing outside this model. -/

/-- An issued database call: SQL text plus ordered parameter values. -/
abbrev DbCall := String × List Value

/-- One element of a query order: a path expression with an optional
direction. -/
inductive QueryOrderElement where
  | prop (e : QueryExpression)
  | propDir (e : QueryExpression) (direction : String)

/-- Embedding of `makeQueryOrderPhrase(entityType, order)`. -/
def makeQueryOrderPhrase (entityType : EntityType)
    (order : Option (List QueryOrderElement)) : Except DErr String :=
  match entityType.mapping with
  | none =>
    .error (.persistenceErr
      ("Cannot make SQL query for an unmapped entity type (" ++ entityType.name ++ "))."))
  | some mapping =>
    match order with
    | none => .ok ""
    | some elements =>
      if elements.length = 0 then .ok ""
      else do
        let orderPhrases ← orderPhraseList mapping elements
        .ok (" ORDER BY " ++ String.intercalate ", " orderPhrases)
where
  /-- Render each order element as `expression direction`. -/
  orderPhraseList (mapping : EntityTypeMapping) :
      List QueryOrderElement → Except DErr (List String)
  | [] => .ok []
  | el :: rest => do
    let path := match el with | .prop e => e | .propDir e _ => e
    let direction :=
      match el with
      | .prop _ => "asc"
      | .propDir _ d => if ["asc", "desc"].contains d.toLower then d.toLower else "asc"
    let sub ← sqlExpressionFromQueryExpression path mapping 0
    let restPhrases ← orderPhraseList mapping rest
    .ok ((sub.expression ++ " " ++ direction) :: restPhrases)

/-- Embedding of `propertyBlacklistElementFromPath` (a Postgres text-array
literal for a property path). -/
def propertyBlacklistElementFromPath (path : String) : String :=
  "\x27\x7b" ++
    String.intercalate ","
      ((propertyPathStringToArray path false).map pathElemToString) ++
    "\x7d\x27"

/-- Embedding of `propertyBlacklistToPhrase`: a chain of jsonb `#-` deletions. -/
def propertyBlacklistToPhrase (propertyBlacklist : List String) : String :=
  if propertyBlacklist.length > 0 then
    String.join (propertyBlacklist.map (fun p => " #- " ++ propertyBlacklistElementFromPath p))
  else ""

/-- Embedding of `getMappedQueryColumns`. -/
def getMappedQueryColumns (mapping : EntityTypeMapping)
    (propertiesToExclude : List String) : List String :=
  (mapping.propertyMappings.filter
      (fun m => ¬ propertiesToExclude.contains m.propertyPath)).map (fun m => m.column)

/-- Embedding of `sqlFetchColumnList`. -/
def sqlFetchColumnList (mapping : EntityTypeMapping)
    (propertiesToExclude : List String) : String :=
  let propertyBlacklistPhrase := propertyBlacklistToPhrase propertiesToExclude
  String.intercalate ", "
    ([mapping.idColumn] ++
      (match mapping.jsonColumn with
       | some j => [j ++ propertyBlacklistPhrase ++ " AS _docorm_data"]
       | none => []) ++
      getMappedQueryColumns mapping propertiesToExclude)

/-- Container test used by deep path assignment (lodash `isObject`). -/
def valueIsContainer : Value → Bool
  | .vobj _ => true
  | .varr _ => true
  | _ => false

/-- Fresh container for a missing path step, keyed by the next part
(an array for an index step, an object otherwise), as lodash `_.set` does. -/
def freshContainerFor (rest : List PathElem) : Value :=
  match rest.head? with
  | some (.idx _) => .varr []
  | _ => .vobj []

/-- Set an array index, padding missing slots (JS holes are modelled as
null). -/
def listSetPad (items : List Value) (n : Nat) (nv : Value) : List Value :=
  match n, items with
  | 0, [] => [nv]
  | 0, _ :: rest => nv :: rest
  | n + 1, [] => .vnull :: listSetPad [] n nv
  | n + 1, x :: rest => x :: listSetPad rest n nv

/-- Lodash `_.set` on parsed path parts: descend through containers,
replacing non-container steps with fresh containers. -/
def jsSetParts (v : Value) (parts : List PathElem) (nv : Value) : Value :=
  match parts with
  | [] => nv
  | .comp k :: rest =>
    let fields := match v with | .vobj fs => fs | _ => []
    let child :=
      match objGet fields k with
      | some c => if valueIsContainer c then c else freshContainerFor rest
      | none => freshContainerFor rest
    .vobj (setKey fields k (jsSetParts child rest nv))
  | .idx n :: rest =>
    let items := match v with | .varr xs => xs | _ => []
    let child :=
      match items.get? n with
      | some c => if valueIsContainer c then c else freshContainerFor rest
      | none => freshContainerFor rest
    .varr (listSetPad items n (jsSetParts child rest nv))

/-- Embedding of `rowToEntity(row, mapping)`: spread the JSON payload
column, set `_id` from the id column, then overlay each mapped column at its
property path. -/
def rowToEntity (row : List (String × Value)) (mapping : EntityTypeMapping) : Value :=
  let base :=
    match objGet row "_docorm_data" with
    | some (.vobj fs) => fs
    | _ => []
  let entity :=
    match objGet row mapping.idColumn with
    | some v => setKey base "_id" v
    | none => base
  mapping.propertyMappings.foldl
    (fun e m =>
      match objGet row m.column with
      | some v => jsSetParts e (stringToPathParts m.propertyPath) v
      | none => e)
    (Value.vobj entity)

/-- Embedding of the raw DAO's `count(query)`: the literal clause `false`
short-circuits to `0` without touching the database; otherwise one
`SELECT count(*)` is issued. -/
def rawCount (entityType : EntityType) (query : Option QueryClause)
    (db : String → List Value → List (List (String × Value))) :
    Except DErr (JsVal × List DbCall) :=
  match entityType.mapping with
  | none =>
    .error (.persistenceErr
      ("Cannot make SQL query for an unmapped entity type (" ++ entityType.name ++ "))."))
  | some mapping =>
    if mapping.table = "" then
      .error (.persistenceErr
        ("count failed because type \x22" ++ entityType.name ++ " has no table."))
    else
      match query with
      | some .qfalse => .ok (.val (.vnum 0), [])
      | _ => do
        let sc ← makeSqlQueryCriteriaClauses entityType query
        let whereClause := match sc.sqlClause with | some c => " WHERE " ++ c | none => ""
        let sql := "SELECT count(*) AS count FROM \x22" ++ mapping.table ++ "\x22" ++ whereClause
        let rows := db sql sc.parameterValues
        match rows.head? with
        | some row =>
          .ok ((match objGet row "count" with
                | some v => JsVal.val v
                | none => .undef),
            [(sql, sc.parameterValues)])
        | none =>
          .error (.jsThrow "TypeError: Cannot read properties of undefined (reading count)")

/-- Options for calls to the raw DAO's fetch. -/
structure FetchOptions where
  order : Option (List QueryOrderElement) := none
  offset : Option Nat := none
  limit : Option Nat := none
  propertyBlacklist : List String := []

/-- Embedding of the raw DAO's `fetch(query, options)` (non-stream path):
the literal clause `false` short-circuits to `[]` without touching the
database; otherwise one `SELECT` is issued and its rows are converted to
entities. -/
def rawFetch (entityType : EntityType) (query : Option QueryClause)
    (options : FetchOptions)
    (db : String → List Value → List (List (String × Value))) :
    Except DErr (List Value × List DbCall) :=
  match entityType.mapping with
  | none =>
    .error (.persistenceErr
      ("Cannot make SQL query for an unmapped entity type (" ++ entityType.name ++ "))."))
  | some mapping =>
    if mapping.table = "" then
      .error (.persistenceErr
        ("fetch failed because type \x22" ++ entityType.name ++ "\x22 has no table."))
    else
      match query with
      | some .qfalse => .ok ([], [])
      | _ => do
        let columns := sqlFetchColumnList mapping options.propertyBlacklist
        let offsetPhrase :=
          match options.offset with
          | some o => if o ≠ 0 then " OFFSET " ++ toString o else ""
          | none => ""
        let limitPhrase :=
          match options.limit with
          | some o => if o ≠ 0 then " LIMIT " ++ toString o else ""
          | none => ""
        let sc ← makeSqlQueryCriteriaClauses entityType query
        let whereClause := match sc.sqlClause with | some c => " WHERE " ++ c | none => ""
        let orderPhrase ← makeQueryOrderPhrase entityType options.order
        let sql := "SELECT " ++ columns ++ " FROM \x22" ++ mapping.table ++ "\x22" ++
          whereClause ++ orderPhrase ++ offsetPhrase ++ limitPhrase
        let rows := db sql sc.parameterValues
        .ok (rows.map (fun row => rowToEntity row mapping), [(sql, sc.parameterValues)])

/-- Embedding of the raw DAO's `delete(query)`: refuses to run when the
compiled criteria produce no WHERE clause at all (`throw Error`), otherwise
issues exactly one DELETE with that WHERE clause. -/
def rawDelete (entityType : EntityType) (query : Option QueryClause) :
    Except DErr (List DbCall) :=
  match entityType.mapping with
  | none =>
    .error (.persistenceErr
      ("Cannot make SQL query for an unmapped entity type (" ++ entityType.name ++ "))."))
  | some mapping =>
    if mapping.table = "" then
      .error (.persistenceErr
        ("delete failed because type \x22" ++ entityType.name ++ " has no table."))
    else do
      let sc ← makeSqlQueryCriteriaClauses entityType query
      let whereClause := match sc.sqlClause with | some c => " WHERE " ++ c | none => ""
      if whereClause.length < 1 then
        .error (.plainErr ("Attempt to delete all records from table " ++ mapping.table))
      else
        .ok [("DELETE FROM \x22" ++ mapping.table ++ "\x22" ++ whereClause,
          sc.parameterValues)]

/-! ### Draft wrapping (dao.ts: wrapDraft / unwrapDraft)

`unwrapDraft` uses lodash `_.merge`, whose sources skip `undefined`
values; the overlay is therefore modelled as a list of optional values. -/

mutual

/-- Lodash `_.merge` of one source value into a destination value: plain
objects and arrays merge recursively, anything else is replaced by the
source. -/
def jsMergeValues (dst src : Value) : Value :=
  match dst, src with
  | .vobj df, .vobj sf => .vobj (jsMergeObj df sf)
  | .varr di, .varr si => .varr (jsMergeArr di si)
  | _, _ => src

/-- Lodash `_.merge` of source object fields into destination fields. -/
def jsMergeObj (dst : List (String × Value)) (src : List (String × Value)) :
    List (String × Value) :=
  match src with
  | [] => dst
  | (k, v) :: rest =>
    let merged :=
      match objGet dst k with
      | some d => jsMergeValues d v
      | none => v
    jsMergeObj (setKey dst k merged) rest

/-- Lodash `_.merge` of arrays, element-wise by index. -/
def jsMergeArr (dst src : List Value) : List Value :=
  match dst, src with
  | d, [] => d
  | [], s :: srest => s :: jsMergeArr [] srest
  | d :: drest, s :: srest => jsMergeValues d s :: jsMergeArr drest srest

end

/-- Lodash `_.merge` with a source whose values may be `undefined`
(`none`): undefined source properties are skipped. -/
def jsMergeObjOpt (dst : List (String × Value)) (src : List (String × Option Value)) :
    List (String × Value) :=
  match src with
  | [] => dst
  | (_, none) :: rest => jsMergeObjOpt dst rest
  | (k, some v) :: rest =>
    let merged :=
      match objGet dst k with
      | some d => jsMergeValues d v
      | none => v
    jsMergeObjOpt (setKey dst k merged) rest

/-- Embedding of `wrapDraft(item)`: the draft envelope
`(_id, draftBatchId, _type: draft type, draft: item minus _id with _type set
to the original type)`. A missing `_id` on the item leaves the `_id`
property undefined, modelled by omitting the entry. -/
def wrapDraft (draftBatchId : Value) (draftTypeName originalTypeName : String)
    (item : List (String × Value)) : List (String × Value) :=
  (match objGet item "_id" with
   | some v => [("_id", v)]
   | none => []) ++
  [("draftBatchId", draftBatchId),
   ("_type", .vstr draftTypeName),
   ("draft", .vobj (jsAssign (objOmit item "_id") [("_type", .vstr originalTypeName)]))]

/-- Embedding of `unwrapDraft(draft)`:
`_.merge(\x7b\x7d, draft.draft, \x7b_id: draft._id, _type: draft._draftType\x7d)`.
The wrapped envelope never carries a `_draftType` property, so the `_type`
overlay is undefined and `_.merge` skips it, leaving the `_type` stored
inside `draft.draft` (the original entity type name) in effect. A `draft`
property that is not an object contributes nothing, as in lodash. -/
def unwrapDraft (draft : List (String × Value)) : List (String × Value) :=
  let base :=
    match objGet draft "draft" with
    | some (.vobj fs) => jsMergeObj [] fs
    | _ => []
  jsMergeObjOpt base [("_id", objGet draft "_id"), ("_type", objGet draft "_draftType")]

/-! ### Inverse-reference expansion (dao.ts: _fetchInverseReferences)

The grouping and assignment phase of `_fetchInverseReferences` (lines
899-921 of dao.ts) is embedded with the batched child rows given as input
and the in-place `_.set` mutations of parent items rendered as an explicit
assignment log, one entry per inverse reference processed. -/

/-- One collected inverse reference: the parent item's id, the property
path (relative to the parent) to assign, and the relationship cardinality. -/
structure InverseReference where
  parentId : Value
  propertyPath : String
  toMany : Bool

/-- The value assigned to a parent's relationship property. -/
inductive AssignedValue where
  | many (rows : List Value)
  | one (row : Value)
  | nullRef

/-- The rows grouped under one parent id: `_.groupBy` keys rows by the
string rendering of `row[foreignKeyPath].$ref`, and the lookup key is the
string rendering of the parent id. -/
def relatedItemsForParent (rows : List Value) (foreignKeyPath : String)
    (parentId : Value) : List Value :=
  rows.filter (fun row =>
    jsToString (jsGet row (foreignKeyPath ++ ".$ref")) = jsToString (.val parentId))

/-- Embedding of the per-reference assignment loop of
`_fetchInverseReferences`: a to-many reference is always assigned the full
(possibly empty) group of matching rows; a to-one reference with more than
one matching row raises a cardinality error; exactly one row is assigned
directly; zero rows assign null (undefined would mean "not fetched yet").
The returned number counts references fetched, as in the source. -/
def assignInverseReferences (rows : List Value) (foreignKeyPath : String) :
    List InverseReference → Except DErr (List (InverseReference × AssignedValue) × Nat)
  | [] => .ok ([], 0)
  | ref :: rest =>
    let relatedItems := relatedItemsForParent rows foreignKeyPath ref.parentId
    if ref.toMany then do
      let (assignments, n) ← assignInverseReferences rows foreignKeyPath rest
      .ok ((ref, .many relatedItems) :: assignments, n + 1)
    else if relatedItems.length > 1 then
      .error (.persistenceErr "Found more than one related item for a to-one relationship.")
    else
      match relatedItems with
      | [item] => do
        let (assignments, n) ← assignInverseReferences rows foreignKeyPath rest
        .ok ((ref, .one item) :: assignments, n + 1)
      | _ => do
        let (assignments, n) ← assignInverseReferences rows foreignKeyPath rest
        .ok ((ref, .nullRef) :: assignments, n)

/-! ### Schema concretization (schemas.ts)

Raw schemas are JS objects dispatched on the presence of `allOf`, `oneOf`,
`$ref` and on `type`; they are embedded as a one-constructor inductive with
optional fields (`none` models an absent key). Concrete schemas are mutable
JS objects that may alias and form cycles, so they are embedded as nodes in
an explicit heap addressed by allocation index; `MState` carries the heap
together with the memo cache `knownConcreteSubschemas`. The function takes
fuel because the source recursion is not structurally decreasing (and on
some inputs does not terminate at all, see the theorems below). The
`schemaType`/`namespace` arguments of the source only select which schema
directories the store lookup consults; the embedded store stands for the
already-selected directory contents. -/

/-- A raw (possibly composite) schema document. -/
inductive RSchema where
  | mk (allOf : Option (List RSchema))
       (oneOf : Option (List RSchema))
       (ref : Option String)
       (type : Option String)
       (required : Option (List String))
       (properties : Option (List (String × RSchema)))
       (items : Option RSchema)
       (entityType : Option String)
       (foreignKey : Option String)
       (storage : Option String)

/-- The `allOf` property. -/
def RSchema.allOf : RSchema → Option (List RSchema)
  | .mk a _ _ _ _ _ _ _ _ _ => a

/-- The `oneOf` property. -/
def RSchema.oneOf : RSchema → Option (List RSchema)
  | .mk _ o _ _ _ _ _ _ _ _ => o

/-- The `$ref` property. -/
def RSchema.ref : RSchema → Option String
  | .mk _ _ r _ _ _ _ _ _ _ => r

/-- The `type` property. -/
def RSchema.type : RSchema → Option String
  | .mk _ _ _ t _ _ _ _ _ _ => t

/-- The `required` property. -/
def RSchema.required : RSchema → Option (List String)
  | .mk _ _ _ _ r _ _ _ _ _ => r

/-- The `properties` property. -/
def RSchema.properties : RSchema → Option (List (String × RSchema))
  | .mk _ _ _ _ _ p _ _ _ _ => p

/-- The `items` property. -/
def RSchema.items : RSchema → Option RSchema
  | .mk _ _ _ _ _ _ i _ _ _ => i

/-- The `entityType` property. -/
def RSchema.entityType : RSchema → Option String
  | .mk _ _ _ _ _ _ _ e _ _ => e

/-- The `foreignKey` property. -/
def RSchema.foreignKey : RSchema → Option String
  | .mk _ _ _ _ _ _ _ _ f _ => f

/-- The `storage` property. -/
def RSchema.storage : RSchema → Option String
  | .mk _ _ _ _ _ _ _ _ _ s => s

/-- A concretized schema node. Child schemas are referenced by heap index,
which captures the aliasing and cycles of the mutable JS object graph.
The `oneOf` field is never produced by the concretizer but is read
defensively by `findRelationships`, as in the source. -/
structure CNode where
  type : Option String := none
  required : Option (List String) := none
  properties : Option (List (String × Nat)) := none
  items : Option Nat := none
  entityType : Option String := none
  foreignKey : Option String := none
  storage : Option String := none
  oneOf : Option (List Nat) := none
deriving Repr, DecidableEq

/-- The resolution state: the heap of concrete nodes built so far and the
memo cache `knownConcreteSubschemas` mapping cache keys to node indices. -/
structure MState where
  heap : List CNode := []
  cache : List (String × Nat) := []
deriving Repr, DecidableEq

/-- First-match lookup in a string-keyed association list. -/
def assocGet {α : Type} (l : List (String × α)) (k : String) : Option α :=
  match l with
  | [] => none
  | (k₀, v₀) :: rest => if k₀ = k then some v₀ else assocGet rest k

/-- JS property assignment in a string-keyed association list: update the
first occurrence in place or append. -/
def assocSet {α : Type} (l : List (String × α)) (k : String) (v : α) :
    List (String × α) :=
  match l with
  | [] => [(k, v)]
  | (k₀, v₀) :: rest => if k₀ = k then (k, v) :: rest else (k₀, v₀) :: assocSet rest k v

/-- Read a heap node (a dangling index reads as an empty node; the embedded
functions never produce dangling indices). -/
def heapGet (heap : List CNode) (i : Nat) : CNode :=
  (heap.get? i).getD {}

/-- Write a heap node in place. -/
def heapSet (heap : List CNode) (i : Nat) (n : CNode) : List CNode :=
  heap.set i n

/-- Allocate a fresh empty node (`let concreteSchema = \x7b\x7d`). -/
def allocNode (st : MState) : Nat × MState :=
  (st.heap.length, { st with heap := st.heap ++ [{}] })

/-- The registered schema documents, keyed by lookup path: the contents of
the schema directories selected by the requested schema type and namespace.
`getSchema` is a pure first-match lookup over them, as in the Schema Store. -/
abbrev SchemaStore := List (List String × RSchema)

/-- Embedding of `getSchema(path, ...)` over the selected store. -/
def getSchema (store : SchemaStore) (path : List String) : Option RSchema :=
  (store.find? (fun e => e.1 = path)).map (fun e => e.2)

/-- JS template interpolation of a possibly-undefined string
(`undefined` renders as the text "undefined"). -/
def jsShowOpt (o : Option String) : String :=
  o.getD "undefined"

/-- JS `||` on an optional string with a string default. -/
def jsOrString (o : Option String) (d : String) : String :=
  if optStrTruthy o then o.getD "" else d

/-- Leading-slash trim (`_.trimStart(ref, \x27/\x27)`). -/
def trimStartSlashes (s : String) : String :=
  String.mk (s.data.dropWhile (fun c => c = '/'))

/-- The memo cache key of a `$ref` node:
`ref|entityType|foreignKey|storage` with undefined fields rendering as
"undefined". -/
def cachedSchemaKeyOf (schema : RSchema) : String :=
  schema.ref.getD "" ++ "|" ++ jsShowOpt schema.entityType ++ "|" ++
    jsShowOpt schema.foreignKey ++ "|" ++ jsShowOpt schema.storage

/-- JS `Object.assign` key-wise merge of property maps in order (a later
map wins on key collision). -/
def jsAssignProps (ls : List (List (String × Nat))) : List (String × Nat) :=
  ls.foldl (fun acc l => l.foldl (fun a e => assocSet a e.1 e.2) acc) []

/-- The last present value among optional fields, i.e. the result of
`_.merge(\x7b\x7d, ...picks)` for one scalar key (a later present value
wins). -/
def lastSome {α : Type} (l : List (Option α)) : Option α :=
  l.foldl (fun acc o => match o with | some v => some v | none => acc) none

/-- The scalar fields copied by `_.clone(schema)` into a fresh concrete
node (the raw `properties`/`items` sub-objects that the shallow clone also
copies are immediately replaced by their concretized versions or are not
representable on a concrete node, so they are not modelled). -/
def cloneFields (schema : RSchema) : CNode :=
  { type := schema.type, required := schema.required,
    entityType := schema.entityType, foreignKey := schema.foreignKey,
    storage := schema.storage }

mutual

/-- Embedding of `makeSchemaConcrete(schema, schemaType, namespace, state)`.
A fresh node is allocated first and, when a cache key is to be stored, the
memo entry is registered before anything else — in particular before
recursing into a referenced schema's children, which is what ties
self-referential `$ref` chains into cycles.
The `allOf`/`oneOf` branches compute `findIndex` of a non-object branch but
their error handler is an empty block in the source, so no error is raised
here either. -/
def makeSchemaConcrete (store : SchemaStore) :
    Nat → RSchema → Option String → MState → Except DErr (Nat × MState)
  | 0, _, _, _ => .error .outOfFuel
  | fuel + 1, schema, cachedSchemaKeyToStore, st₀ =>
    let (nid, st₁) := allocNode st₀
    let st₂ :=
      match cachedSchemaKeyToStore with
      | some k => { st₁ with cache := assocSet st₁.cache k nid }
      | none => st₁
    if schema.allOf.isSome then do
      let (ids, st₃) ← makeSchemaConcreteList store fuel (schema.allOf.getD []) st₂
      -- invalidSubschemaIndex is computed in the source but its handler is an empty block
      let requiredProperties :=
        (ids.map (fun i => ((heapGet st₃.heap i).required).getD [])).flatten
      let properties :=
        jsAssignProps (ids.map (fun i => ((heapGet st₃.heap i).properties).getD []))
      let node : CNode :=
        { heapGet st₃.heap nid with
          type := some "object",
          required := if requiredProperties.isEmpty then none else some requiredProperties,
          properties := if properties.isEmpty then none else some properties }
      .ok (nid, { st₃ with heap := heapSet st₃.heap nid node })
    else if schema.oneOf.isSome then do
      let (ids, st₃) ← makeSchemaConcreteList store fuel (schema.oneOf.getD []) st₂
      -- required properties are discarded for oneOf; the commented-out union stays empty
      let properties :=
        jsAssignProps (ids.map (fun i => ((heapGet st₃.heap i).properties).getD []))
      let options := schema.oneOf.getD []
      let node : CNode :=
        { heapGet st₃.heap nid with
          type := some "object",
          entityType := lastSome (options.map RSchema.entityType),
          foreignKey := lastSome (options.map RSchema.foreignKey),
          storage := lastSome (options.map RSchema.storage),
          required := none,
          properties := if properties.isEmpty then none else some properties }
      .ok (nid, { st₃ with heap := heapSet st₃.heap nid node })
    else if optStrTruthy schema.ref then
      let refStr := schema.ref.getD ""
      let path := splitOnChar (trimStartSlashes refStr) '/'
      let cachedSchemaKey := cachedSchemaKeyOf schema
      let reuse : Bool :=
        (assocGet st₂.cache cachedSchemaKey).isSome ∧
          cachedSchemaKeyToStore ≠ some cachedSchemaKey
      do
        let (resultId, stA) ←
          if reuse then
            let cid := (assocGet st₂.cache cachedSchemaKey).getD 0
            let st₃ :=
              match cachedSchemaKeyToStore with
              | some k => { st₂ with cache := assocSet st₂.cache k cid }
              | none => st₂
            pure (cid, st₃)
          else
            match getSchema store path with
            | none =>
              .error (.internalErr
                ("Schema refers to unknown subschema with $ref \x22" ++
                  String.intercalate "," path ++ "\x22."))
            | some subschema => do
              let (rid, st₅) ←
                makeSchemaConcrete store fuel subschema (some cachedSchemaKey) st₂
              -- Object.assign(concreteSchema, result): field-wise copy into the fresh node
              pure (nid, { st₅ with heap := heapSet st₅.heap nid (heapGet st₅.heap rid) })
        let stB :=
          if optStrTruthy schema.entityType ∨ optStrTruthy schema.foreignKey ∨
              optStrTruthy schema.storage then
            let n := heapGet stA.heap resultId
            let n₂ : CNode :=
              { n with
                entityType :=
                  match schema.entityType with | some v => some v | none => n.entityType,
                foreignKey :=
                  match schema.foreignKey with | some v => some v | none => n.foreignKey,
                storage :=
                  match schema.storage with | some v => some v | none => n.storage }
            { stA with heap := heapSet stA.heap resultId n₂ }
          else stA
        let n := heapGet stB.heap resultId
        if n.type = some "object" then
          let props := n.properties.getD []
          if (assocGet props "$ref").isSome then
            .ok (resultId,
              { stB with heap := heapSet stB.heap resultId { n with properties := some props } })
          else
            let (sid, stC) := allocNode stB
            let stD := { stC with heap := heapSet stC.heap sid { type := some "string" } }
            .ok (resultId,
              { stD with
                heap := heapSet stD.heap resultId
                  { n with properties := some (assocSet props "$ref" sid) } })
        else
          .ok (resultId, stB)
    else
      match schema.type with
      | some "object" =>
        (match schema.properties with
         | none =>
           .ok (nid, { st₂ with heap := heapSet st₂.heap nid (cloneFields schema) })
         | some ps => do
           let (pids, st₃) ← makeSchemaConcreteProps store fuel ps st₂
           let node : CNode := { cloneFields schema with properties := some pids }
           .ok (nid, { st₃ with heap := heapSet st₃.heap nid node }))
      | some "array" =>
        (match schema.items with
         | none =>
           .ok (nid, { st₂ with heap := heapSet st₂.heap nid (cloneFields schema) })
         | some it => do
           let (iid, st₃) ← makeSchemaConcrete store fuel it none st₂
           let node : CNode := { cloneFields schema with items := some iid }
           .ok (nid, { st₃ with heap := heapSet st₃.heap nid node }))
      | _ =>
        .ok (nid, { st₂ with heap := heapSet st₂.heap nid (cloneFields schema) })

/-- The branch loop of the `allOf`/`oneOf` cases: concretize each branch in
order, sharing the memo cache but with no cache key to store. The loop also
consumes one unit of fuel per element so that the mutual recursion is
structural on the fuel; the fuel is an embedding artifact, and consuming it
faster only raises the budget a terminating run needs. -/
def makeSchemaConcreteList (store : SchemaStore) :
    Nat → List RSchema → MState → Except DErr (List Nat × MState)
  | 0, _, _ => .error .outOfFuel
  | _ + 1, [], st => .ok ([], st)
  | fuel + 1, s :: rest, st => do
    let (i, st₂) ← makeSchemaConcrete store fuel s none st
    let (is, st₃) ← makeSchemaConcreteList store fuel rest st₂
    .ok (i :: is, st₃)

/-- The `_.mapValues` loop of the object case: concretize each property
value in key order (fuel handled as in `makeSchemaConcreteList`). -/
def makeSchemaConcreteProps (store : SchemaStore) :
    Nat → List (String × RSchema) → MState → Except DErr (List (String × Nat) × MState)
  | 0, _, _ => .error .outOfFuel
  | _ + 1, [], st => .ok ([], st)
  | fuel + 1, (name, s) :: rest, st => do
    let (i, st₂) ← makeSchemaConcrete store fuel s none st
    let (is, st₃) ← makeSchemaConcreteProps store fuel rest st₂
    .ok ((name, i) :: is, st₃)

end

/-- Modelled from the spec: `pathDepth` from paths.ts, which is not among
the provided sources. Section 4.2 bounds traversal by the depth of the
current JSONPath; the path `$` has depth 0 and each `.prop` or `[*]`
navigation step adds one. -/
def pathDepth (path : String) : Nat :=
  ((splitOnChar path '.').length - 1) + ((splitOnChar path '[').length - 1)

/-- A discovered relationship. The `schema` field holds the node carried by
the source's `Relationship.schema` reference. -/
structure Relationship where
  path : String
  toMany : Bool
  storage : String
  entityTypeName : String
  schema : CNode
  foreignKeyPath : Option String := none
  depthFromParent : Nat
deriving Repr, DecidableEq

mutual

/-- Embedding of `findRelationships(schema, allowedStorage, maxDepth,
currentPath, nodesTraversedInPath, depthFromParent)` over the concrete-node
heap. `ident` is the heap index of the node when it is a heap resident and
`none` for the fresh copies created by `_.omit` in the array case; the
source's reference-identity membership test `nodesTraversedInPath.includes`
becomes index membership, and a fresh copy is never a member. -/
def findRelationships (heap : List CNode) :
    Nat → CNode → Option Nat → Option (List String) → Option Nat → String →
      List Nat → Nat → Except DErr (List Relationship)
  | 0, _, _, _, _, _, _, _ => .error .outOfFuel
  | fuel + 1, schema, ident, allowedStorage, maxDepth, currentPath,
      nodesTraversedInPath, depthFromParent =>
    if maxDepth.isNone &&
        (match ident with
         | some i => nodesTraversedInPath.contains i
         | none => false) then
      .ok []
    else if (match maxDepth with
             | some d => decide (pathDepth currentPath > d)
             | none => false) then
      .ok []
    else
      match schema.oneOf with
      | some subIds =>
        findRelationshipsList heap fuel subIds allowedStorage maxDepth currentPath
          (nodesTraversedInPath ++ ident.toList) depthFromParent
      | none =>
        match schema.type with
        | some "object" => do
          let entityTypeName := schema.entityType
          let storage := schema.storage
          let objectIsReference :=
            optStrTruthy entityTypeName ∧ optStrTruthy storage ∧
              ["ref", "inverse-ref"].contains (storage.getD "")
          let emitted : List Relationship ←
            if optStrTruthy entityTypeName && optStrTruthy storage &&
                (match allowedStorage with
                 | none => true
                 | some allowed => allowed.contains (storage.getD "")) then
              if storage.getD "" = "inverse-ref" then
                if ¬ optStrTruthy schema.foreignKey then
                  .error (.internalErr
                    "Missing foreign key path in relationship with storage type inverse-ref")
                else
                  pure [{ path := currentPath, toMany := false,
                          storage := jsOrString storage "copy",
                          entityTypeName := entityTypeName.getD "", schema := schema,
                          foreignKeyPath := schema.foreignKey,
                          depthFromParent := depthFromParent }]
              else
                pure [{ path := currentPath, toMany := false,
                        storage := jsOrString storage "copy",
                        entityTypeName := entityTypeName.getD "", schema := schema,
                        foreignKeyPath := none,
                        depthFromParent := depthFromParent }]
            else pure []
          let childRels ←
            findRelationshipsPropsList heap fuel (schema.properties.getD [])
              allowedStorage maxDepth currentPath (nodesTraversedInPath ++ ident.toList)
              (if objectIsReference then 0 else depthFromParent + 1)
          .ok (emitted ++ childRels)
        | some "array" =>
          (match schema.items with
           | some iid => do
             let itemsSchema := heapGet heap iid
             let entityTypeName := itemsSchema.entityType
             let storage := itemsSchema.storage
             let itemsAreReferences :=
               optStrTruthy entityTypeName ∧ optStrTruthy storage ∧
                 ["ref", "inverse-ref"].contains (storage.getD "")
             let emitted : List Relationship ←
               if optStrTruthy entityTypeName && optStrTruthy storage &&
                   (match allowedStorage with
                    | none => true
                    | some allowed => allowed.contains (storage.getD "")) then
                 if storage.getD "" = "inverse-ref" then
                   if ¬ optStrTruthy itemsSchema.foreignKey then
                     .error (.internalErr
                       "Missing foreign key path in relationship with storage type inverse-ref")
                   else
                     pure [{ path := currentPath, toMany := true,
                             storage := jsOrString storage "copy",
                             entityTypeName := entityTypeName.getD "",
                             schema := itemsSchema,
                             foreignKeyPath := itemsSchema.foreignKey,
                             depthFromParent := depthFromParent }]
                 else
                   pure [{ path := currentPath, toMany := true,
                           storage := jsOrString storage "copy",
                           entityTypeName := entityTypeName.getD "",
                           schema := itemsSchema,
                           foreignKeyPath := none,
                           depthFromParent := depthFromParent }]
               else pure []
             let itemsSchemaWithoutStorage := { itemsSchema with storage := none }
             let rs ←
               findRelationships heap fuel itemsSchemaWithoutStorage none allowedStorage
                 maxDepth (currentPath ++ "[*]") (nodesTraversedInPath ++ ident.toList)
                 (if itemsAreReferences then 0 else depthFromParent + 1)
             .ok (emitted ++ rs)
           | none => .ok [])
        | _ => .ok []

/-- The `oneOf` loop: concatenate the relationships of each option, with
the current path and depth unchanged. The loop consumes one unit of fuel
per element so the mutual recursion is structural on the fuel. -/
def findRelationshipsList (heap : List CNode) :
    Nat → List Nat → Option (List String) → Option Nat → String → List Nat → Nat →
      Except DErr (List Relationship)
  | 0, _, _, _, _, _, _ => .error .outOfFuel
  | _ + 1, [], _, _, _, _, _ => .ok []
  | fuel + 1, i :: rest, allowedStorage, maxDepth, currentPath, visited,
      depthFromParent => do
    let rs ←
      findRelationships heap fuel (heapGet heap i) (some i) allowedStorage maxDepth
        currentPath visited depthFromParent
    let more ←
      findRelationshipsList heap fuel rest allowedStorage maxDepth currentPath visited
        depthFromParent
    .ok (rs ++ more)

/-- The property loop of the object case: descend into each property at the
extended path with the child depth computed by the caller (fuel handled as
in `findRelationshipsList`). -/
def findRelationshipsPropsList (heap : List CNode) :
    Nat → List (String × Nat) → Option (List String) → Option Nat → String →
      List Nat → Nat → Except DErr (List Relationship)
  | 0, _, _, _, _, _, _ => .error .outOfFuel
  | _ + 1, [], _, _, _, _, _ => .ok []
  | fuel + 1, (name, pid) :: rest, allowedStorage, maxDepth, currentPath, visited,
      childDepth => do
    let rs ←
      findRelationships heap fuel (heapGet heap pid) (some pid) allowedStorage maxDepth
        (currentPath ++ "." ++ name) visited childDepth
    let more ←
      findRelationshipsPropsList heap fuel rest allowedStorage maxDepth currentPath
        visited childDepth
    .ok (rs ++ more)

end

/-! ## Theorems -/

/-- Last-match lookup in a string-keyed association list (the value a JS
object built by repeated assignment of these entries would hold). -/
def assocGetLast {a : Type} (l : List (String × a)) (k : String) : Option a :=
  match l with
  | [] => none
  | e :: rest =>
    match assocGetLast rest k with
    | some v => some v
    | none => if e.1 = k then some e.2 else none

/-- Key-wise merge lookup following the specification wording for `allOf`
properties: the properties of all branches are merged key-wise and a later
branch wins on key collision. -/
def mergedPropLookup (ls : List (List (String × Nat))) (k : String) : Option Nat :=
  match ls with
  | [] => none
  | l :: rest =>
    match mergedPropLookup rest k with
    | some v => some v
    | none => assocGetLast l k

/-- The child node indices of a concrete-schema node: its property value
nodes, its array items node and its oneOf option nodes. -/
def nodeChildren (heap : List CNode) (i : Nat) : List Nat :=
  ((heapGet heap i).properties.getD []).map (fun e => e.2) ++
    ((heapGet heap i).items.toList) ++ ((heapGet heap i).oneOf.getD [])

/-- Bounded reachability along child edges of the concrete-schema heap. -/
def reachesWithin (heap : List CNode) : Nat → Nat → Nat → Bool
  | 0, _, _ => false
  | f + 1, i, j =>
    (nodeChildren heap i).contains j ||
      (nodeChildren heap i).any (fun c => reachesWithin heap f c j)

/-- A concrete-schema heap is a cyclic object graph when some node reaches
itself along child edges. -/
def heapCyclic (heap : List CNode) : Bool :=
  (List.range heap.length).any (fun i => reachesWithin heap heap.length i i)

/-- Concretization of a schema terminates when some recursion budget makes the
embedded run finish (successfully or with a genuine error), rather than every
budget being exhausted by unbounded recursion. -/
def ConcretizationTerminates (store : SchemaStore) (schema : RSchema) : Prop :=
  ∃ fuel, makeSchemaConcrete store fuel schema none {} ≠ .error .outOfFuel

/-- Reduction of a successful bind in the `Except` monad. -/
theorem bind_ok_reduce {ε α β : Type} (a : α) (f : α → Except ε β) :
    (Except.ok a : Except ε α) >>= f = f a := rfl

/-- Reduction of a failing bind in the `Except` monad. -/
theorem bind_error_reduce {ε α β : Type} (e : ε) (f : α → Except ε β) :
    (Except.error e : Except ε α) >>= f = .error e := rfl

/-- Cast coercion never turns a non-empty column expression empty. -/
theorem coerceType_ne_empty (col : String) (st : Option String) (h : col ≠ "") :
    coerceType col st ≠ "" := by
  unfold coerceType
  cases st with
  | none => exact h
  | some t =>
    by_cases hcond : (t ≠ "" ∧ SQL_TYPES.contains t.toLower = true)
    · simp only [if_pos hcond]
      intro hc
      have hl : ("(" ++ col ++ ")::" ++ t.toLower).length = 0 := by rw [hc]; rfl
      simp only [String.length_append] at hl
      have h1 : "(".length = 1 := rfl
      omega
    · simp only [if_neg hcond]; exact h

/-- C9: for every document `x` and every and-clause with at least one
sub-clause, the in-memory evaluator `applyQuery` returns exactly the result
of the first sub-clause — false when it is false, true when it is true, and
the same thrown error when it throws — unconditionally ignoring the
remaining conjuncts. -/
theorem applyQuery_and_returns_on_first_subclause (x : Value) (c : QueryClause)
    (rest : List QueryClause) :
    applyQuery x (.qand (c :: rest)) = applyQuery x c := by
  simp only [applyQuery]
  cases h : applyQuery x c with
  | error e => rfl
  | ok b => cases b <;> rfl

/-- C5: a comparison clause with a path on the left and the constant null on
the right compiles with operator `IS` — the predicate is
`column IS NULL` for `=` (or an omitted operator) and `column IS NOT NULL`
for `!=`, with no parameters, never `= NULL` or `!= NULL`. -/
theorem sql_null_comparison_compiles_to_is_null (mapping : EntityTypeMapping)
    (p : String) (sqlType : Option String) (pc : Nat) (col : String)
    (h : sqlColumnFromPath p mapping = .ok col) (hcol : col ≠ "") :
    (sqlQueryCriteriaClauseFromQueryClause
        (some (.simple (some "=") (.path p sqlType) (.constant .vnull))) mapping pc =
      .ok { sqlClause := some (coerceType col sqlType ++ " IS NULL"),
            parameterValues := [] }) ∧
    (sqlQueryCriteriaClauseFromQueryClause
        (some (.simple none (.path p sqlType) (.constant .vnull))) mapping pc =
      .ok { sqlClause := some (coerceType col sqlType ++ " IS NULL"),
            parameterValues := [] }) ∧
    (sqlQueryCriteriaClauseFromQueryClause
        (some (.simple (some "!=") (.path p sqlType) (.constant .vnull))) mapping pc =
      .ok { sqlClause := some (coerceType col sqlType ++ " IS NOT NULL"),
            parameterValues := [] }) := by
  have hne := coerceType_ne_empty col sqlType hcol
  refine ⟨?_, ?_, ?_⟩ <;>
    simp [sqlQueryCriteriaClauseFromQueryClause, queryClauseIsFullTextSearch,
      clauseOperator, clauseL, clauseR, queryExpressionIsConstant, queryExpressionIsPath,
      queryExpressionIsFullText, queryExpressionIsConstantList, queryExpressionIsRange,
      exprIsNullConstant, sqlExpressionFromQueryExpression, h, valueIsArray, hne,
      bind_ok_reduce, String.append_assoc]

/-- Witness for C5 at the concrete clause of the spec:
`age = null` over a mapping with JSON column `data` compiles to
`"data"->>'age' IS NULL`. -/
theorem sql_null_comparison_compiles_to_is_null_witness :
    sqlQueryCriteriaClauseFromQueryClause
        (some (.simple none (.path "age" none) (.constant .vnull)))
        { table := "t", idColumn := "id", jsonColumn := some "data" } 0 =
      .ok { sqlClause := some "\x22data\x22->>\x27age\x27 IS NULL",
            parameterValues := [] } :=
  (sql_null_comparison_compiles_to_is_null
    { table := "t", idColumn := "id", jsonColumn := some "data" }
    "age" none 0 "\x22data\x22->>\x27age\x27" (by rfl) (by decide)).2.1

/-- C6: with a table mapping present, `count` with the literal query `false`
returns 0 and `fetch` with the literal query `false` returns the empty
list, in both cases issuing no database call at all; and the compiled form
of the literal clause `false` is the always-false predicate `0 = 1`. -/
theorem literal_false_short_circuits :
    (∀ (et : EntityType) (m : EntityTypeMapping) db,
      et.mapping = some m → m.table ≠ "" →
        rawCount et (some .qfalse) db = .ok (.val (.vnum 0), [])) ∧
    (∀ (et : EntityType) (m : EntityTypeMapping) opts db,
      et.mapping = some m → m.table ≠ "" →
        rawFetch et (some .qfalse) opts db = .ok ([], [])) ∧
    (∀ (mapping : EntityTypeMapping) (pc : Nat),
      sqlQueryCriteriaClauseFromQueryClause (some .qfalse) mapping pc =
        .ok { sqlClause := some "0 = 1", parameterValues := [] }) := by
  refine ⟨?_, ?_, ?_⟩
  · intro et m db hm ht
    simp [rawCount, hm, ht]
  · intro et m opts db hm ht
    simp [rawFetch, hm, ht]
  · intro mapping pc
    simp [sqlQueryCriteriaClauseFromQueryClause]

/-- Witness for C6 at a concrete entity type. -/
theorem literal_false_short_circuits_witness :
    rawCount { name := "book", mapping := some { table := "t", idColumn := "id" } }
        (some .qfalse) (fun _ _ => []) = .ok (.val (.vnum 0), []) :=
  literal_false_short_circuits.1
    { name := "book", mapping := some { table := "t", idColumn := "id" } }
    { table := "t", idColumn := "id" } (fun _ _ => []) rfl (by decide)

/-- C10: the raw DAO's delete never issues a DELETE without a WHERE clause:
when the mapping has no JSON column and the query compiles to no predicate,
delete fails with the "Attempt to delete all records" error instead of
deleting every row; and whenever delete succeeds, the single statement it
issued is a DELETE carrying a WHERE clause. -/
theorem delete_requires_where_clause :
    (∀ (et : EntityType) (m : EntityTypeMapping) (q : Option QueryClause)
        (res : SqlClause),
      et.mapping = some m → m.table ≠ "" → m.jsonColumn = none →
      sqlQueryCriteriaClauseFromQueryClause q m 0 = .ok res → res.sqlClause = none →
        rawDelete et q =
          .error (.plainErr ("Attempt to delete all records from table " ++ m.table))) ∧
    (∀ (et : EntityType) (q : Option QueryClause) (calls : List DbCall),
      rawDelete et q = .ok calls →
        ∃ (m : EntityTypeMapping) (c : String) (ps : List Value),
          et.mapping = some m ∧
            calls = [("DELETE FROM \x22" ++ m.table ++ "\x22 WHERE " ++ c, ps)]) := by
  constructor
  · intro et m q res hm ht hj hq hnone
    simp [rawDelete, hm, ht, makeSqlQueryCriteriaClauses, hj, hq, hnone, bind_ok_reduce]
  · intro et q calls hok
    unfold rawDelete at hok
    split at hok
    · exact absurd hok (by simp)
    · rename_i m hm
      split at hok
      · exact absurd hok (by simp)
      · rename_i ht
        cases hsc : makeSqlQueryCriteriaClauses et q with
        | error e => rw [hsc, bind_error_reduce] at hok; exact absurd hok (by simp)
        | ok sc =>
          rw [hsc, bind_ok_reduce] at hok
          cases hc : sc.sqlClause with
          | none => simp [hc] at hok
          | some c =>
            rw [hc] at hok
            have hlen : ¬ (" WHERE " ++ c).length < 1 := by
              rw [String.length_append]
              have h7 : " WHERE ".length = 7 := rfl
              omega
            rw [if_neg hlen] at hok
            refine ⟨m, c, sc.parameterValues, hm, ?_⟩
            simp only [Except.ok.injEq] at hok
            rw [← hok]
            have hmerge : ∀ s : String, "\x22" ++ (" WHERE " ++ s) = "\x22 WHERE " ++ s := by
              intro s
              rw [← String.append_assoc]
              rfl
            simp [String.append_assoc, hmerge]

/-- Witness for C10: a mapping with no JSON column and the query `true`
make delete fail, and a compiled query makes delete issue a guarded
DELETE. -/
theorem delete_requires_where_clause_witness :
    rawDelete { name := "book", mapping := some { table := "t", idColumn := "id" } }
        (some .qtrue) =
      .error (.plainErr "Attempt to delete all records from table t") :=
  delete_requires_where_clause.1
    { name := "book", mapping := some { table := "t", idColumn := "id" } }
    { table := "t", idColumn := "id" } (some .qtrue)
    { sqlClause := none, parameterValues := [] }
    rfl (by decide) rfl (by simp [sqlQueryCriteriaClauseFromQueryClause]) rfl

/-- During the assignment phase of inverse-reference expansion, the
cardinality error is raised exactly when some to-one inverse reference has
more than one matching child row, and the error raised is a persistence
error. -/
theorem assignInverseReferences_cardinality_error_iff (rows : List Value)
    (fk : String) (refs : List InverseReference) :
    ((∃ r ∈ refs, r.toMany = false ∧ (relatedItemsForParent rows fk r.parentId).length > 1) ↔
      assignInverseReferences rows fk refs =
        .error (.persistenceErr "Found more than one related item for a to-one relationship.")) := by
  induction refs with
  | nil => simp [assignInverseReferences]
  | cons ref rest ih =>
    simp only [assignInverseReferences]
    by_cases ht : ref.toMany
    · rw [if_pos ht]
      cases hrec : assignInverseReferences rows fk rest with
      | error e =>
        rw [bind_error_reduce]
        constructor
        · intro hex
          rcases hex with ⟨r, hr, hm, hlen⟩
          rcases List.mem_cons.mp hr with hr | hr
          · subst hr; rw [hm] at ht; exact absurd ht (by simp)
          · have h2 := ih.mp ⟨r, hr, hm, hlen⟩
            rw [hrec] at h2
            exact h2
        · intro he
          simp only [Except.error.injEq] at he
          subst he
          rcases ih.mpr hrec with ⟨r, hr, hm, hlen⟩
          exact ⟨r, List.mem_cons.mpr (Or.inr hr), hm, hlen⟩
      | ok p =>
        rw [bind_ok_reduce]
        constructor
        · intro hex
          rcases hex with ⟨r, hr, hm, hlen⟩
          rcases List.mem_cons.mp hr with hr | hr
          · subst hr; rw [hm] at ht; exact absurd ht (by simp)
          · have h2 := ih.mp ⟨r, hr, hm, hlen⟩
            rw [hrec] at h2
            exact absurd h2 (by simp)
        · intro he
          exact absurd he (by simp)
    · rw [if_neg ht]
      by_cases hlen : (relatedItemsForParent rows fk ref.parentId).length > 1
      · rw [if_pos hlen]
        exact ⟨fun _ => rfl,
          fun _ => ⟨ref, List.mem_cons_self ref rest, by simpa using ht, hlen⟩⟩
      · rw [if_neg hlen]
        have hsplit : ∀ (q : Except DErr (List (InverseReference × AssignedValue) × Nat)),
            (hq : assignInverseReferences rows fk rest = q) →
            ((∃ r ∈ ref :: rest, r.toMany = false ∧
                (relatedItemsForParent rows fk r.parentId).length > 1) ↔
              (match relatedItemsForParent rows fk ref.parentId with
               | [item] => do
                 let p ← assignInverseReferences rows fk rest
                 Except.ok ((ref, AssignedValue.one item) :: p.1, p.2 + 1)
               | _ => do
                 let p ← assignInverseReferences rows fk rest
                 Except.ok ((ref, AssignedValue.nullRef) :: p.1, p.2)) =
              Except.error
                (DErr.persistenceErr
                  "Found more than one related item for a to-one relationship.")) := by
          intro q hq
          have hexiff : (∃ r ∈ ref :: rest, r.toMany = false ∧
              (relatedItemsForParent rows fk r.parentId).length > 1) ↔
              (∃ r ∈ rest, r.toMany = false ∧
                (relatedItemsForParent rows fk r.parentId).length > 1) := by
            constructor
            · rintro ⟨r, hr, hm, hl⟩
              rcases List.mem_cons.mp hr with hr | hr
              · subst hr; exact absurd hl hlen
              · exact ⟨r, hr, hm, hl⟩
            · rintro ⟨r, hr, hm, hl⟩
              exact ⟨r, List.mem_cons.mpr (Or.inr hr), hm, hl⟩
          rw [hexiff, ih, hq]
          cases q with
          | error e =>
            cases hitems : relatedItemsForParent rows fk ref.parentId with
            | nil => simp [hq, bind_error_reduce]
            | cons a tl =>
              cases tl with
              | nil => simp [hq, bind_error_reduce]
              | cons b tl2 =>
                exfalso
                rw [hitems] at hlen
                simp at hlen
          | ok p =>
            cases hitems : relatedItemsForParent rows fk ref.parentId with
            | nil => simp [hq, bind_ok_reduce]
            | cons a tl =>
              cases tl with
              | nil => simp [hq, bind_ok_reduce]
              | cons b tl2 =>
                exfalso
                rw [hitems] at hlen
                simp at hlen
        exact hsplit _ rfl

/-- During the assignment phase of inverse-reference expansion, every
to-many inverse reference in a successful run is assigned the full array of
its matching child rows (the empty array when none match). -/
theorem assignInverseReferences_to_many_assigns_array (rows : List Value)
    (fk : String) (refs : List InverseReference)
    (asn : List (InverseReference × AssignedValue)) (n : Nat)
    (hok : assignInverseReferences rows fk refs = .ok (asn, n)) :
    ∀ r ∈ refs, r.toMany = true →
      (r, .many (relatedItemsForParent rows fk r.parentId)) ∈ asn := by
  induction refs generalizing asn n with
  | nil => intro r hr; exact absurd hr (by simp)
  | cons ref rest ih =>
    intro r hr hm
    simp only [assignInverseReferences] at hok
    by_cases ht : ref.toMany
    · rw [if_pos ht] at hok
      cases hrec : assignInverseReferences rows fk rest with
      | error e => rw [hrec, bind_error_reduce] at hok; exact absurd hok (by simp)
      | ok p =>
        rw [hrec, bind_ok_reduce] at hok
        simp only [Except.ok.injEq, Prod.mk.injEq] at hok
        obtain ⟨hasn, hn⟩ := hok
        rcases List.mem_cons.mp hr with hr | hr
        · subst hr; rw [← hasn]; exact List.mem_cons_self _ _
        · have hmem := ih p.1 p.2 (by rw [hrec]) r hr hm
          rw [← hasn]; exact List.mem_cons_of_mem _ hmem
    · rw [if_neg ht] at hok
      by_cases hlen : (relatedItemsForParent rows fk ref.parentId).length > 1
      · rw [if_pos hlen] at hok; exact absurd hok (by simp)
      · rw [if_neg hlen] at hok
        cases hrec : assignInverseReferences rows fk rest with
        | error e =>
          exfalso
          rw [hrec] at hok
          cases hitems : relatedItemsForParent rows fk ref.parentId with
          | nil => rw [hitems] at hok; simp [bind_error_reduce] at hok
          | cons a tl =>
            cases tl with
            | nil => rw [hitems] at hok; simp [bind_error_reduce] at hok
            | cons b tl2 => rw [hitems] at hlen; simp at hlen
        | ok p =>
          rw [hrec] at hok
          cases hitems : relatedItemsForParent rows fk ref.parentId with
          | nil =>
            rw [hitems] at hok
            simp only [bind_ok_reduce, Except.ok.injEq, Prod.mk.injEq] at hok
            obtain ⟨hasn, hn⟩ := hok
            rcases List.mem_cons.mp hr with hr | hr
            · subst hr; rw [hm] at ht; exact absurd rfl ht
            · have hmem := ih p.1 p.2 (by rw [hrec]) r hr hm
              rw [← hasn]; exact List.mem_cons_of_mem _ hmem
          | cons a tl =>
            cases tl with
            | nil =>
              rw [hitems] at hok
              simp only [bind_ok_reduce, Except.ok.injEq, Prod.mk.injEq] at hok
              obtain ⟨hasn, hn⟩ := hok
              rcases List.mem_cons.mp hr with hr | hr
              · subst hr; rw [hm] at ht; exact absurd rfl ht
              · have hmem := ih p.1 p.2 (by rw [hrec]) r hr hm
                rw [← hasn]; exact List.mem_cons_of_mem _ hmem
            | cons b tl2 =>
              exfalso
              rw [hitems] at hlen
              simp at hlen

/-- C7 counterexample: with two child rows both carrying `post.$ref = "P1"`
and one to-one inverse reference for parent "P1", the expansion raises the
cardinality error as a `PersistenceError` — not the internal error the
claim asserts. -/
theorem inverse_ref_cardinality_error_is_persistence :
    assignInverseReferences
        [.vobj [("post", .vobj [("$ref", .vstr "P1")]), ("text", .vstr "a")],
         .vobj [("post", .vobj [("$ref", .vstr "P1")]), ("text", .vstr "b")]]
        "post" [⟨.vstr "P1", "comments", false⟩] =
      .error (.persistenceErr "Found more than one related item for a to-one relationship.") :=
  rfl

/-- C7 (amended): during inverse-reference expansion, a to-one inverse
relationship whose batched child query returns more than one row for the
same parent id raises the relationship-cardinality error — classified as a
persistence error — and this is the only error of the assignment phase;
and every to-many inverse relationship is assigned the full array of its
matching rows, the empty array when none match, never left undefined. -/
theorem inverse_ref_cardinality_and_to_many_array :
    (∀ (rows : List Value) (fk : String) (refs : List InverseReference),
      (∃ r ∈ refs, r.toMany = false ∧
          (relatedItemsForParent rows fk r.parentId).length > 1) ↔
        assignInverseReferences rows fk refs =
          .error (.persistenceErr
            "Found more than one related item for a to-one relationship.")) ∧
    (∀ (rows : List Value) (fk : String) (refs : List InverseReference)
        (asn : List (InverseReference × AssignedValue)) (n : Nat),
      assignInverseReferences rows fk refs = .ok (asn, n) →
        ∀ r ∈ refs, r.toMany = true →
          (r, .many (relatedItemsForParent rows fk r.parentId)) ∈ asn) :=
  ⟨assignInverseReferences_cardinality_error_iff,
   assignInverseReferences_to_many_assigns_array⟩

/-- Witness for C7: a to-many inverse reference with zero matching child
rows is assigned the empty array. -/
theorem inverse_ref_cardinality_and_to_many_array_witness :
    ((⟨.vstr "P1", "comments", true⟩ : InverseReference), AssignedValue.many []) ∈
      [((⟨.vstr "P1", "comments", true⟩ : InverseReference), AssignedValue.many [])] :=
  inverse_ref_cardinality_and_to_many_array.2 [] "post"
    [⟨.vstr "P1", "comments", true⟩] [(⟨.vstr "P1", "comments", true⟩, .many [])] 1
    rfl ⟨.vstr "P1", "comments", true⟩ (List.mem_cons_self _ _) rfl

/-! ### Lemmas about object field lists (for the draft round trip) -/

/-- Lookup after JS property assignment. -/
theorem objGet_setKey (l : List (String × Value)) (k k2 : String) (v : Value) :
    objGet (setKey l k v) k2 = if k = k2 then some v else objGet l k2 := by
  induction l with
  | nil =>
    by_cases h : k = k2 <;> simp [setKey, objGet, h]
  | cons hd tl ih =>
    obtain ⟨k0, v0⟩ := hd
    simp only [setKey]
    by_cases h0 : k0 = k
    · rw [if_pos h0]
      by_cases h2 : k = k2
      · conv_lhs => rw [objGet, if_pos h2]
        rw [if_pos h2]
      · have hk02 : ¬ k0 = k2 := fun hh => h2 (h0.symm.trans hh)
        conv_lhs => rw [objGet, if_neg h2]
        rw [if_neg h2]
        conv_rhs => rw [objGet, if_neg hk02]
    · rw [if_neg h0]
      by_cases h2 : k0 = k2
      · have hkk2 : ¬ k = k2 := fun hh => h0 (h2.trans hh.symm)
        conv_lhs => rw [objGet, if_pos h2]
        rw [if_neg hkk2]
        conv_rhs => rw [objGet, if_pos h2]
      · conv_lhs => rw [objGet, if_neg h2]
        rw [ih]
        by_cases h3 : k = k2
        · rw [if_pos h3, if_pos h3]
        · rw [if_neg h3, if_neg h3]
          conv_rhs => rw [objGet, if_neg h2]

theorem objGet_omit (l : List (String × Value)) (k k2 : String) :
    objGet (objOmit l k) k2 = if k2 = k then none else objGet l k2 := by
  induction l with
  | nil => by_cases h : k2 = k <;> simp [objOmit, objGet, h]
  | cons hd tl ih =>
    obtain ⟨k0, v0⟩ := hd
    simp only [objOmit]
    by_cases h0 : k0 = k
    · rw [if_pos h0, ih]
      by_cases h2 : k2 = k
      · rw [if_pos h2, if_pos h2]
      · have hk02 : ¬ k0 = k2 := fun hh => h2 (hh.symm.trans h0)
        rw [if_neg h2, if_neg h2]
        conv_rhs => rw [objGet, if_neg hk02]
    · rw [if_neg h0]
      by_cases h2 : k0 = k2
      · have hk2k : ¬ k2 = k := fun hh => h0 (h2.trans hh)
        rw [if_neg hk2k]
        conv_lhs => rw [objGet, if_pos h2]
        conv_rhs => rw [objGet, if_pos h2]
      · conv_lhs => rw [objGet, if_neg h2]
        rw [ih]
        by_cases h3 : k2 = k
        · rw [if_pos h3, if_pos h3]
        · rw [if_neg h3, if_neg h3]
          conv_rhs => rw [objGet, if_neg h2]

theorem objGet_append (a b : List (String × Value)) (k : String) :
    objGet (a ++ b) k =
      match objGet a k with
      | some v => some v
      | none => objGet b k := by
  induction a with
  | nil => simp [objGet]
  | cons hd tl ih =>
    obtain ⟨k0, v0⟩ := hd
    show objGet ((k0, v0) :: (tl ++ b)) k = _
    by_cases h0 : k0 = k <;> simp [objGet, h0, ih]

theorem setKey_absent (l : List (String × Value)) (k : String) (v : Value)
    (h : objGet l k = none) : setKey l k v = l ++ [(k, v)] := by
  induction l with
  | nil => simp [setKey]
  | cons hd tl ih =>
    obtain ⟨k0, v0⟩ := hd
    simp only [objGet] at h
    by_cases h0 : k0 = k
    · rw [if_pos h0] at h; exact absurd h (by simp)
    · rw [if_neg h0] at h
      simp only [setKey, if_neg h0, List.cons_append, ih h]

theorem mem_keys_setKey (l : List (String × Value)) (k k2 : String) (v : Value) :
    k2 ∈ (setKey l k v).map Prod.fst ↔ k2 = k ∨ k2 ∈ l.map Prod.fst := by
  induction l with
  | nil => simp [setKey]
  | cons hd tl ih =>
    obtain ⟨k0, v0⟩ := hd
    simp only [setKey]
    by_cases h0 : k0 = k
    · rw [if_pos h0]
      simp only [List.map_cons, List.mem_cons, h0]
      tauto
    · rw [if_neg h0]
      simp only [List.map_cons, List.mem_cons, ih]
      tauto

theorem setKey_keys_nodup (l : List (String × Value)) (k : String) (v : Value)
    (h : (l.map Prod.fst).Nodup) : ((setKey l k v).map Prod.fst).Nodup := by
  induction l with
  | nil => simp [setKey]
  | cons hd tl ih =>
    obtain ⟨k0, v0⟩ := hd
    simp only [List.map_cons, List.nodup_cons] at h
    obtain ⟨hk0, htl⟩ := h
    simp only [setKey]
    by_cases h0 : k0 = k
    · rw [if_pos h0]
      simp only [List.map_cons, List.nodup_cons]
      exact ⟨h0 ▸ hk0, htl⟩
    · rw [if_neg h0]
      simp only [List.map_cons, List.nodup_cons]
      refine ⟨?_, ih htl⟩
      intro hmem
      rcases (mem_keys_setKey tl k k0 v).mp hmem with h | h
      · exact h0 h
      · exact hk0 h

theorem objOmit_sublist (l : List (String × Value)) (k : String) :
    (objOmit l k).Sublist l := by
  induction l with
  | nil => simp [objOmit]
  | cons hd tl ih =>
    obtain ⟨k0, v0⟩ := hd
    simp only [objOmit]
    by_cases h0 : k0 = k
    · rw [if_pos h0]
      exact ih.cons _
    · rw [if_neg h0]
      exact ih.cons₂ _

theorem omit_keys_nodup (l : List (String × Value)) (k : String)
    (h : (l.map Prod.fst).Nodup) : ((objOmit l k).map Prod.fst).Nodup :=
  ((objOmit_sublist l k).map Prod.fst).nodup h

theorem jsMergeObj_disjoint (src : List (String × Value)) (dst : List (String × Value))
    (hnd : (src.map Prod.fst).Nodup)
    (hdisj : ∀ k2 ∈ src.map Prod.fst, objGet dst k2 = none) :
    jsMergeObj dst src = dst ++ src := by
  induction src generalizing dst with
  | nil => simp [jsMergeObj]
  | cons hd rest ih =>
    obtain ⟨k, v⟩ := hd
    simp only [jsMergeObj]
    have hdk : objGet dst k = none := hdisj k (by simp)
    rw [hdk, setKey_absent dst k v hdk]
    simp only [List.map_cons, List.nodup_cons] at hnd
    obtain ⟨hknotin, hndrest⟩ := hnd
    have hstep := ih (dst ++ [(k, v)]) hndrest (fun k2 hk2 => by
      rw [objGet_append]
      rw [hdisj k2 (by simp [hk2])]
      simp only [objGet]
      exact if_neg (fun hh : k = k2 => hknotin (by rw [hh]; exact hk2)))
    rw [hstep]
    simp

/-- C8: wrapping an item that has an `_id` under a draft batch and then
unwrapping the stored draft reproduces the item with `_type` set to the
original entity type name, at every property: the `_id` is restored, every
other property is preserved, and `_type` is the original type name (the
`_draftType` overlay read by unwrapDraft is undefined on the wrapped
envelope, so lodash merge skips it and the `_type` stored inside the draft
payload takes effect). -/
theorem draft_wrap_unwrap_round_trip (draftBatchId : Value) (draftTypeName originalTypeName : String)
    (item : List (String × Value)) (idv : Value)
    (hnodup : (item.map Prod.fst).Nodup)
    (hid : objGet item "_id" = some idv) :
    ∀ k, objGet (unwrapDraft (wrapDraft draftBatchId draftTypeName originalTypeName item)) k
      = objGet (setKey item "_type" (.vstr originalTypeName)) k := by
  intro k
  have hdf2 : jsAssign (objOmit item "_id") [("_type", Value.vstr originalTypeName)] =
      setKey (objOmit item "_id") "_type" (.vstr originalTypeName) := rfl
  have hnd_omit := omit_keys_nodup item "_id" hnodup
  have hnd_df : ((setKey (objOmit item "_id") "_type"
      (Value.vstr originalTypeName)).map Prod.fst).Nodup :=
    setKey_keys_nodup _ "_type" _ hnd_omit
  have hdfid : objGet (setKey (objOmit item "_id") "_type"
      (Value.vstr originalTypeName)) "_id" = none := by
    rw [objGet_setKey]
    rw [if_neg (by decide)]
    rw [objGet_omit]
    rw [if_pos rfl]
  unfold wrapDraft
  rw [hid]
  unfold unwrapDraft
  have hgetdraft : objGet
      ([("_id", idv)] ++
        [("draftBatchId", draftBatchId), ("_type", Value.vstr draftTypeName),
         ("draft", Value.vobj (jsAssign (objOmit item "_id")
           [("_type", Value.vstr originalTypeName)]))]) "draft" =
      some (Value.vobj (jsAssign (objOmit item "_id")
        [("_type", Value.vstr originalTypeName)])) := by
    simp [objGet]
  have hgetid : objGet
      ([("_id", idv)] ++
        [("draftBatchId", draftBatchId), ("_type", Value.vstr draftTypeName),
         ("draft", Value.vobj (jsAssign (objOmit item "_id")
           [("_type", Value.vstr originalTypeName)]))]) "_id" = some idv := by
    simp [objGet]
  have hgetdt : objGet
      ([("_id", idv)] ++
        [("draftBatchId", draftBatchId), ("_type", Value.vstr draftTypeName),
         ("draft", Value.vobj (jsAssign (objOmit item "_id")
           [("_type", Value.vstr originalTypeName)]))]) "_draftType" = none := by
    simp [objGet]
  rw [hgetdraft, hgetid, hgetdt]
  dsimp only
  rw [hdf2]
  have hbase : jsMergeObj [] (setKey (objOmit item "_id") "_type"
      (Value.vstr originalTypeName)) =
      setKey (objOmit item "_id") "_type" (Value.vstr originalTypeName) := by
    have := jsMergeObj_disjoint
      (setKey (objOmit item "_id") "_type" (Value.vstr originalTypeName)) []
      hnd_df (fun k2 _ => rfl)
    simpa using this
  rw [hbase]
  simp only [jsMergeObjOpt]
  rw [hdfid]
  rw [setKey_absent _ "_id" idv hdfid]
  rw [objGet_append]
  rw [objGet_setKey, objGet_omit, objGet_setKey]
  by_cases h1 : "_type" = k
  · rw [if_pos h1, if_pos h1]
  · rw [if_neg h1, if_neg h1]
    by_cases h2 : k = "_id"
    · rw [if_pos h2]
      subst h2
      rw [hid]
      simp [objGet]
    · rw [if_neg h2]
      cases hit : objGet item k with
      | some v => simp
      | none =>
        simp only [objGet]
        rw [if_neg (fun hh : "_id" = k => h2 hh.symm)]


/-- Witness for C8 at the concrete item of the spec:
wrapping `(_id: "X", title: "t")` under batch "B1" and unwrapping yields
`_type = "book"` (the original type), `_id = "X"` and `title = "t"`. -/
theorem draft_wrap_unwrap_round_trip_witness :
    objGet (unwrapDraft (wrapDraft (.vstr "B1") "draft" "book"
        [("_id", .vstr "X"), ("title", .vstr "t")])) "_type" = some (.vstr "book") ∧
    objGet (unwrapDraft (wrapDraft (.vstr "B1") "draft" "book"
        [("_id", .vstr "X"), ("title", .vstr "t")])) "_id" = some (.vstr "X") ∧
    objGet (unwrapDraft (wrapDraft (.vstr "B1") "draft" "book"
        [("_id", .vstr "X"), ("title", .vstr "t")])) "title" = some (.vstr "t") := by
  refine ⟨?_, ?_, ?_⟩ <;>
    rw [draft_wrap_unwrap_round_trip (Value.vstr "B1") "draft" "book"
        [("_id", Value.vstr "X"), ("title", Value.vstr "t")] (Value.vstr "X")
        (by decide) rfl] <;> rfl

/-- C3 (documenting the code defect): an `allOf` composition with a branch
whose concrete type is `string` rather than `object` is not rejected:
`makeSchemaConcrete` computes the offending branch index, but the error
handler block at schemas.ts lines 72-74 is empty, so the function returns a
merged `object` schema instead of throwing a schema error. -/
theorem allOf_non_object_branch_not_rejected :
    makeSchemaConcrete [] 3
        (.mk (some [.mk none none none (some "string") none none none none none none])
          none none none none none none none none none) none {} =
      .ok (0, { heap := [{ type := some "object" }, { type := some "string" }],
                cache := [] }) :=
  rfl


theorem bind_cons_head {e : Type} {a : Type} (x : Except e (List a)) (v : a)
    (rs : List a) (h : (do let c ← x; Except.ok (v :: c)) = Except.ok rs) :
    rs.head? = some v := by
  cases x with
  | error err => rw [bind_error_reduce] at h; exact absurd h (by simp)
  | ok c =>
    rw [bind_ok_reduce] at h
    simp only [Except.ok.injEq] at h
    rw [← h]
    rfl

theorem findRelationships_missing_fk_error (heap : List CNode) (fuel : Nat)
    (schema : CNode) (ident : Option Nat) (allowedStorage : Option (List String))
    (currentPath : String) (dfp : Nat) (e : String)
    (htype : schema.type = some "object") (honeOf : schema.oneOf = none)
    (het : schema.entityType = some e) (hene : e ≠ "")
    (hst : schema.storage = some "inverse-ref")
    (hallow : match allowedStorage with | none => True | some l => "inverse-ref" ∈ l)
    (hfk : schema.foreignKey = none) :
    findRelationships heap (fuel + 1) schema ident allowedStorage none currentPath [] dfp =
      .error (.internalErr
        "Missing foreign key path in relationship with storage type inverse-ref") := by
  cases ident <;> cases allowedStorage <;>
    simp_all [findRelationships, optStrTruthy, bind_error_reduce]

theorem findRelationships_emits_inverse_rel (heap : List CNode) (fuel : Nat)
    (schema : CNode) (ident : Option Nat) (allowedStorage : Option (List String))
    (currentPath : String) (dfp : Nat) (e fk : String) (rs : List Relationship)
    (htype : schema.type = some "object") (honeOf : schema.oneOf = none)
    (het : schema.entityType = some e) (hene : e ≠ "")
    (hst : schema.storage = some "inverse-ref")
    (hallow : match allowedStorage with | none => True | some l => "inverse-ref" ∈ l)
    (hfk : schema.foreignKey = some fk) (hfkne : fk ≠ "")
    (hok : findRelationships heap (fuel + 1) schema ident allowedStorage none currentPath
      [] dfp = .ok rs) :
    rs.head? =
      some { path := currentPath, toMany := false, storage := "inverse-ref",
             entityTypeName := e, schema := schema, foreignKeyPath := some fk,
             depthFromParent := dfp } := by
  cases ident <;> cases allowedStorage <;>
      simp_all [findRelationships, optStrTruthy, bind_ok_reduce, jsOrString] <;>
    exact bind_cons_head _ _ _ hok


theorem pure_eq_ok {ε α : Type} (a : α) : (pure a : Except ε α) = Except.ok a := rfl

theorem bind_append_inv {e : Type} {a : Type} {x : Except e (List a)} {pre rs : List a}
    (h : (x >>= fun c => Except.ok (pre ++ c)) = .ok rs) :
    ∃ c, x = .ok c ∧ rs = pre ++ c := by
  cases x with
  | error err => rw [bind_error_reduce] at h; exact absurd h (by simp)
  | ok c =>
    rw [bind_ok_reduce] at h
    simp only [Except.ok.injEq] at h
    exact ⟨c, rfl, h.symm⟩

theorem findRelationships_fk_invariant (fuel : Nat) :
    (∀ heap schema ident allowed maxDepth currentPath visited dfp rs,
      findRelationships heap fuel schema ident allowed maxDepth currentPath visited dfp =
        .ok rs →
      ∀ r ∈ rs, (r.foreignKeyPath ≠ none ↔ r.storage = "inverse-ref")) ∧
    (∀ heap ids allowed maxDepth currentPath visited dfp rs,
      findRelationshipsList heap fuel ids allowed maxDepth currentPath visited dfp =
        .ok rs →
      ∀ r ∈ rs, (r.foreignKeyPath ≠ none ↔ r.storage = "inverse-ref")) ∧
    (∀ heap props allowed maxDepth currentPath visited childDepth rs,
      findRelationshipsPropsList heap fuel props allowed maxDepth currentPath visited
        childDepth = .ok rs →
      ∀ r ∈ rs, (r.foreignKeyPath ≠ none ↔ r.storage = "inverse-ref")) := by
  induction fuel with
  | zero =>
    refine ⟨?_, ?_, ?_⟩
    · intro heap schema ident allowed maxDepth currentPath visited dfp rs hok
      simp [findRelationships] at hok
    · intro heap ids allowed maxDepth currentPath visited dfp rs hok
      simp [findRelationshipsList] at hok
    · intro heap props allowed maxDepth currentPath visited childDepth rs hok
      simp [findRelationshipsPropsList] at hok
  | succ fuel ih =>
    obtain ⟨ihM, ihL, ihP⟩ := ih
    refine ⟨?_, ?_, ?_⟩
    · intro heap schema ident allowed maxDepth currentPath visited dfp rs hok r hr
      simp only [findRelationships] at hok
      split at hok
      · simp only [Except.ok.injEq] at hok; rw [← hok] at hr; simp at hr
      · split at hok
        · simp only [Except.ok.injEq] at hok; rw [← hok] at hr; simp at hr
        · split at hok
          · exact ihL _ _ _ _ _ _ _ _ hok r hr
          · split at hok
            · -- object case
              split at hok
              · rename_i hcond1
                rw [Bool.and_eq_true, Bool.and_eq_true] at hcond1
                obtain ⟨⟨het, hst⟩, hal⟩ := hcond1
                split at hok
                · rename_i hcond2
                  split at hok
                  · exfalso
                    simp [bind_error_reduce] at hok
                  · rename_i hfk
                    rw [pure_eq_ok, bind_ok_reduce] at hok
                    obtain ⟨childRels, hcr, hrs⟩ := bind_append_inv hok
                    subst hrs
                    rcases List.mem_append.mp hr with hr | hr
                    · rw [List.mem_singleton] at hr
                      subst hr
                      simp only []
                      cases hsv : schema.storage with
                      | none => rw [hsv] at hst; simp [optStrTruthy] at hst
                      | some s =>
                        rw [hsv] at hcond2 hst
                        simp only [optStrTruthy] at hst
                        simp only [Option.getD] at hcond2
                        constructor
                        · intro _
                          simp [jsOrString, optStrTruthy, hsv, hcond2,
                            decide_eq_true_eq] at hst ⊢
                        · intro _
                          simp only [ne_eq]
                          intro hnone
                          rw [hnone] at hfk
                          simp [optStrTruthy] at hfk
                    · exact ihP _ _ _ _ _ _ _ _ hcr r hr
                · rename_i hcond2
                  rw [pure_eq_ok, bind_ok_reduce] at hok
                  obtain ⟨childRels, hcr, hrs⟩ := bind_append_inv hok
                  subst hrs
                  rcases List.mem_append.mp hr with hr | hr
                  · rw [List.mem_singleton] at hr
                    subst hr
                    simp only []
                    constructor
                    · intro hfkp
                      simp at hfkp
                    · intro hsinv
                      exfalso
                      cases hsv : schema.storage with
                      | none => rw [hsv] at hst; simp [optStrTruthy] at hst
                      | some s =>
                        rw [hsv] at hcond2 hst hsinv
                        simp only [optStrTruthy] at hst
                        simp only [jsOrString, optStrTruthy, hsv] at hsinv
                        rw [if_pos hst] at hsinv
                        simp only [Option.getD] at hsinv hcond2
                        exact hcond2 hsinv
                  · exact ihP _ _ _ _ _ _ _ _ hcr r hr
              · rw [pure_eq_ok, bind_ok_reduce] at hok
                obtain ⟨childRels, hcr, hrs⟩ := bind_append_inv hok
                subst hrs
                exact ihP _ _ _ _ _ _ _ _ hcr r hr
            · -- array case
              split at hok
              · rename_i iid heqitems
                split at hok
                · rename_i hcond1
                  rw [Bool.and_eq_true, Bool.and_eq_true] at hcond1
                  obtain ⟨⟨het, hst⟩, hal⟩ := hcond1
                  split at hok
                  · rename_i hcond2
                    split at hok
                    · exfalso
                      simp [bind_error_reduce] at hok
                    · rename_i hfk
                      rw [pure_eq_ok, bind_ok_reduce] at hok
                      obtain ⟨childRels, hcr, hrs⟩ := bind_append_inv hok
                      subst hrs
                      rcases List.mem_append.mp hr with hr | hr
                      · rw [List.mem_singleton] at hr
                        subst hr
                        simp only []
                        cases hsv : (heapGet heap iid).storage with
                        | none => rw [hsv] at hst; simp [optStrTruthy] at hst
                        | some s =>
                          rw [hsv] at hcond2 hst
                          simp only [optStrTruthy] at hst
                          simp only [Option.getD] at hcond2
                          constructor
                          · intro _
                            simp [jsOrString, optStrTruthy, hsv, hcond2,
                              decide_eq_true_eq] at hst ⊢
                          · intro _
                            simp only [ne_eq]
                            intro hnone
                            rw [hnone] at hfk
                            simp [optStrTruthy] at hfk
                      · exact ihM _ _ _ _ _ _ _ _ _ hcr r hr
                  · rename_i hcond2
                    rw [pure_eq_ok, bind_ok_reduce] at hok
                    obtain ⟨childRels, hcr, hrs⟩ := bind_append_inv hok
                    subst hrs
                    rcases List.mem_append.mp hr with hr | hr
                    · rw [List.mem_singleton] at hr
                      subst hr
                      simp only []
                      constructor
                      · intro hfkp
                        simp at hfkp
                      · intro hsinv
                        exfalso
                        cases hsv : (heapGet heap iid).storage with
                        | none => rw [hsv] at hst; simp [optStrTruthy] at hst
                        | some s =>
                          rw [hsv] at hcond2 hst hsinv
                          simp only [optStrTruthy] at hst
                          simp only [jsOrString, optStrTruthy, hsv] at hsinv
                          rw [if_pos hst] at hsinv
                          simp only [Option.getD] at hsinv hcond2
                          exact hcond2 hsinv
                    · exact ihM _ _ _ _ _ _ _ _ _ hcr r hr
                · rw [pure_eq_ok, bind_ok_reduce] at hok
                  obtain ⟨childRels, hcr, hrs⟩ := bind_append_inv hok
                  subst hrs
                  exact ihM _ _ _ _ _ _ _ _ _ hcr r hr
              · simp only [Except.ok.injEq] at hok; rw [← hok] at hr; simp at hr
            -- default case
            · simp only [Except.ok.injEq] at hok; rw [← hok] at hr; simp at hr
    · intro heap ids allowed maxDepth currentPath visited dfp rs hok r hr
      cases ids with
      | nil =>
        simp only [findRelationshipsList, Except.ok.injEq] at hok
        rw [← hok] at hr; simp at hr
      | cons i rest =>
        simp only [findRelationshipsList] at hok
        cases h1 : findRelationships heap fuel (heapGet heap i) (some i) allowed maxDepth
            currentPath visited dfp with
        | error e => rw [h1, bind_error_reduce] at hok; exact absurd hok (by simp)
        | ok rs1 =>
          rw [h1, bind_ok_reduce] at hok
          cases h2 : findRelationshipsList heap fuel rest allowed maxDepth currentPath
              visited dfp with
          | error e => rw [h2, bind_error_reduce] at hok; exact absurd hok (by simp)
          | ok rs2 =>
            rw [h2, bind_ok_reduce] at hok
            simp only [Except.ok.injEq] at hok
            rw [← hok] at hr
            rcases List.mem_append.mp hr with hr | hr
            · exact ihM _ _ _ _ _ _ _ _ _ h1 r hr
            · exact ihL _ _ _ _ _ _ _ _ h2 r hr
    · intro heap props allowed maxDepth currentPath visited childDepth rs hok r hr
      cases props with
      | nil =>
        simp only [findRelationshipsPropsList, Except.ok.injEq] at hok
        rw [← hok] at hr; simp at hr
      | cons p rest =>
        obtain ⟨name, pid⟩ := p
        simp only [findRelationshipsPropsList] at hok
        cases h1 : findRelationships heap fuel (heapGet heap pid) (some pid) allowed
            maxDepth (currentPath ++ "." ++ name) visited childDepth with
        | error e => rw [h1, bind_error_reduce] at hok; exact absurd hok (by simp)
        | ok rs1 =>
          rw [h1, bind_ok_reduce] at hok
          cases h2 : findRelationshipsPropsList heap fuel rest allowed maxDepth currentPath
              visited childDepth with
          | error e => rw [h2, bind_error_reduce] at hok; exact absurd hok (by simp)
          | ok rs2 =>
            rw [h2, bind_ok_reduce] at hok
            simp only [Except.ok.injEq] at hok
            rw [← hok] at hr
            rcases List.mem_append.mp hr with hr | hr
            · exact ihM _ _ _ _ _ _ _ _ _ h1 r hr
            · exact ihP _ _ _ _ _ _ _ _ h2 r hr


/-- Claim C4: for a concrete-schema object node carrying a nonempty entityType and
storage inverse-ref that passes the allow-list filter, findRelationships returns the
internal error about the missing foreign key when the node has no foreignKey; when a
(nonempty) foreignKey is present it succeeds and the emitted relationship for the node
carries that foreign key as its foreignKeyPath; and in every relationship list
returned by findRelationships, foreignKeyPath is present iff storage is inverse-ref. -/
theorem findRelationships_inverse_ref_foreign_key
    (heap : List CNode) (fuel : Nat) (schema : CNode) (ident : Option Nat)
    (allowedStorage : Option (List String)) (currentPath : String) (dfp : Nat)
    (e fk : String)
    (htype : schema.type = some "object") (honeOf : schema.oneOf = none)
    (het : schema.entityType = some e) (hene : e ≠ "")
    (hst : schema.storage = some "inverse-ref")
    (hallow : match allowedStorage with | none => True | some l => "inverse-ref" ∈ l) :
    (schema.foreignKey = none →
      findRelationships heap (fuel + 1) schema ident allowedStorage none currentPath []
          dfp =
        .error (.internalErr
          "Missing foreign key path in relationship with storage type inverse-ref")) ∧
    (∀ rs, schema.foreignKey = some fk → fk ≠ "" →
      findRelationships heap (fuel + 1) schema ident allowedStorage none currentPath []
          dfp = .ok rs →
      rs.head? =
        some { path := currentPath, toMany := false, storage := "inverse-ref",
               entityTypeName := e, schema := schema, foreignKeyPath := some fk,
               depthFromParent := dfp }) ∧
    (∀ heap2 fuel2 schema2 ident2 allowed2 maxDepth2 path2 visited2 dfp2 rs2,
      findRelationships heap2 fuel2 schema2 ident2 allowed2 maxDepth2 path2 visited2
          dfp2 = .ok rs2 →
      ∀ r ∈ rs2, (r.foreignKeyPath ≠ none ↔ r.storage = "inverse-ref")) :=
  ⟨fun hfk => findRelationships_missing_fk_error heap fuel schema ident allowedStorage
      currentPath dfp e htype honeOf het hene hst hallow hfk,
   fun rs hfk hfkne hok => findRelationships_emits_inverse_rel heap fuel schema ident
      allowedStorage currentPath dfp e fk rs htype honeOf het hene hst hallow hfk hfkne
      hok,
   fun heap2 fuel2 schema2 ident2 allowed2 maxDepth2 path2 visited2 dfp2 rs2 hok =>
     (findRelationships_fk_invariant fuel2).1 heap2 schema2 ident2 allowed2 maxDepth2
       path2 visited2 dfp2 rs2 hok⟩

/-- Witness for C4, exercising both inner implications of the theorem at
concrete comments-style inverse-ref nodes with enough fuel for the runs to
finish: with no foreignKey the run really returns the missing-foreign-key
internal error, and with foreignKey postId the run really succeeds and the
emitted head relationship carries foreignKeyPath postId. -/
theorem findRelationships_inverse_ref_foreign_key_witness :
    (findRelationships [] (1 + 1)
        { type := some "object", entityType := some "comments",
          storage := some "inverse-ref" }
        none none none "comments" [] 0 =
      .error (.internalErr
        "Missing foreign key path in relationship with storage type inverse-ref")) ∧
    (findRelationships [] (1 + 1)
        { type := some "object", entityType := some "comments",
          storage := some "inverse-ref", foreignKey := some "postId" }
        none none none "comments" [] 0 =
      .ok [{ path := "comments", toMany := false, storage := "inverse-ref",
             entityTypeName := "comments",
             schema := { type := some "object", entityType := some "comments",
                         storage := some "inverse-ref", foreignKey := some "postId" },
             foreignKeyPath := some "postId", depthFromParent := 0 }]) ∧
    (([{ path := "comments", toMany := false, storage := "inverse-ref",
         entityTypeName := "comments",
         schema := { type := some "object", entityType := some "comments",
                     storage := some "inverse-ref", foreignKey := some "postId" },
         foreignKeyPath := some "postId",
         depthFromParent := 0 }] : List Relationship).head? =
      some { path := "comments", toMany := false, storage := "inverse-ref",
             entityTypeName := "comments",
             schema := { type := some "object", entityType := some "comments",
                         storage := some "inverse-ref", foreignKey := some "postId" },
             foreignKeyPath := some "postId", depthFromParent := 0 }) :=
  ⟨(findRelationships_inverse_ref_foreign_key [] 1
      { type := some "object", entityType := some "comments",
        storage := some "inverse-ref" }
      none none "comments" 0 "comments" "postId" rfl rfl rfl (by decide) rfl
      trivial).1 rfl,
   rfl,
   (findRelationships_inverse_ref_foreign_key [] 1
      { type := some "object", entityType := some "comments",
        storage := some "inverse-ref", foreignKey := some "postId" }
      none none "comments" 0 "comments" "postId" rfl rfl rfl (by decide) rfl
      trivial).2.1
     [{ path := "comments", toMany := false, storage := "inverse-ref",
        entityTypeName := "comments",
        schema := { type := some "object", entityType := some "comments",
                    storage := some "inverse-ref", foreignKey := some "postId" },
        foreignKeyPath := some "postId", depthFromParent := 0 }]
     rfl (by decide) rfl⟩

theorem bind_inv {e : Type} {a b : Type} {x : Except e a} {f : a → Except e b} {r : b}
    (h : (x >>= f) = .ok r) : ∃ v, x = .ok v ∧ f v = .ok r := by
  cases x with
  | error err => rw [bind_error_reduce] at h; exact absurd h (by simp)
  | ok v => rw [bind_ok_reduce] at h; exact ⟨v, rfl, h⟩

theorem heapSet_length (h : List CNode) (i : Nat) (n : CNode) :
    (heapSet h i n).length = h.length := by
  simp [heapSet]

theorem makeSchemaConcrete_heap_mono (fuel : Nat) :
    (∀ store schema kts st i st₂,
      makeSchemaConcrete store fuel schema kts st = .ok (i, st₂) →
      st.heap.length ≤ st₂.heap.length) ∧
    (∀ store ss st ids st₂,
      makeSchemaConcreteList store fuel ss st = .ok (ids, st₂) →
      st.heap.length ≤ st₂.heap.length) ∧
    (∀ store ps st pids st₂,
      makeSchemaConcreteProps store fuel ps st = .ok (pids, st₂) →
      st.heap.length ≤ st₂.heap.length) := by
  induction fuel with
  | zero =>
    refine ⟨?_, ?_, ?_⟩
    · intro store schema kts st i st₂ hok
      simp [makeSchemaConcrete] at hok
    · intro store ss st ids st₂ hok
      simp [makeSchemaConcreteList] at hok
    · intro store ps st pids st₂ hok
      simp [makeSchemaConcreteProps] at hok
  | succ fuel ih =>
    obtain ⟨ihM, ihL, ihP⟩ := ih
    refine ⟨?_, ?_, ?_⟩
    · intro store schema kts st i st₂ hok
      cases kts with
      | none =>
        rw [makeSchemaConcrete] at hok
        simp only [allocNode] at hok
        by_cases hA : schema.allOf.isSome = true
        · rw [if_pos hA] at hok
          obtain ⟨v, h1, hok⟩ := bind_inv hok
          simp only [Except.ok.injEq, Prod.mk.injEq] at hok
          rw [← hok.2]
          have hm := ihL _ _ _ _ _ h1
          simp [heapSet] at hm ⊢
          omega
        · rw [if_neg hA] at hok
          by_cases hO : schema.oneOf.isSome = true
          · rw [if_pos hO] at hok
            obtain ⟨v, h1, hok⟩ := bind_inv hok
            simp only [Except.ok.injEq, Prod.mk.injEq] at hok
            rw [← hok.2]
            have hm := ihL _ _ _ _ _ h1
            simp [heapSet] at hm ⊢
            omega
          · rw [if_neg hO] at hok
            by_cases hR : optStrTruthy schema.ref = true
            · rw [if_pos hR] at hok
              split at hok
              · rw [pure_eq_ok, bind_ok_reduce] at hok
                dsimp only at hok
                split at hok <;>
                  split at hok <;>
                    first
                    | (simp only [Except.ok.injEq, Prod.mk.injEq] at hok; rw [← hok.2]; simp only [heapSet, List.length_set, List.length_append, List.length_cons, List.length_nil]; omega)
                    | (split at hok <;>
                        (simp only [Except.ok.injEq, Prod.mk.injEq] at hok; rw [← hok.2]; simp only [heapSet, List.length_set, List.length_append, List.length_cons, List.length_nil]; omega))
              · split at hok
                · rw [bind_error_reduce] at hok
                  exact absurd hok (by simp)
                · obtain ⟨w, h2, hok⟩ := bind_inv hok
                  rw [pure_eq_ok, bind_ok_reduce] at hok
                  dsimp only at hok
                  have hm := ihM _ _ _ _ _ _ h2
                  simp only [List.length_append, List.length_cons, List.length_nil]
                    at hm
                  split at hok <;>
                    split at hok <;>
                      first
                      | (simp only [Except.ok.injEq, Prod.mk.injEq] at hok; rw [← hok.2]; simp only [heapSet, List.length_set, List.length_append, List.length_cons, List.length_nil]; omega)
                      | (split at hok <;>
                          (simp only [Except.ok.injEq, Prod.mk.injEq] at hok; rw [← hok.2]; simp only [heapSet, List.length_set, List.length_append, List.length_cons, List.length_nil]; omega))
            · rw [if_neg hR] at hok
              split at hok
              · split at hok
                · simp only [Except.ok.injEq, Prod.mk.injEq] at hok
                  rw [← hok.2]
                  simp [heapSet]
                · obtain ⟨v, h1, hok⟩ := bind_inv hok
                  simp only [Except.ok.injEq, Prod.mk.injEq] at hok
                  rw [← hok.2]
                  have hm := ihP _ _ _ _ _ h1
                  simp [heapSet] at hm ⊢
                  omega
              · split at hok
                · simp only [Except.ok.injEq, Prod.mk.injEq] at hok
                  rw [← hok.2]
                  simp [heapSet]
                · obtain ⟨v, h1, hok⟩ := bind_inv hok
                  simp only [Except.ok.injEq, Prod.mk.injEq] at hok
                  rw [← hok.2]
                  have hm := ihM _ _ _ _ _ _ h1
                  simp [heapSet] at hm ⊢
                  omega
              · simp only [Except.ok.injEq, Prod.mk.injEq] at hok
                rw [← hok.2]
                simp [heapSet]
      | some k =>
        rw [makeSchemaConcrete] at hok
        simp only [allocNode] at hok
        by_cases hA : schema.allOf.isSome = true
        · rw [if_pos hA] at hok
          obtain ⟨v, h1, hok⟩ := bind_inv hok
          simp only [Except.ok.injEq, Prod.mk.injEq] at hok
          rw [← hok.2]
          have hm := ihL _ _ _ _ _ h1
          simp [heapSet] at hm ⊢
          omega
        · rw [if_neg hA] at hok
          by_cases hO : schema.oneOf.isSome = true
          · rw [if_pos hO] at hok
            obtain ⟨v, h1, hok⟩ := bind_inv hok
            simp only [Except.ok.injEq, Prod.mk.injEq] at hok
            rw [← hok.2]
            have hm := ihL _ _ _ _ _ h1
            simp [heapSet] at hm ⊢
            omega
          · rw [if_neg hO] at hok
            by_cases hR : optStrTruthy schema.ref = true
            · rw [if_pos hR] at hok
              split at hok
              · rw [pure_eq_ok, bind_ok_reduce] at hok
                dsimp only at hok
                split at hok <;>
                  split at hok <;>
                    first
                    | (simp only [Except.ok.injEq, Prod.mk.injEq] at hok; rw [← hok.2]; simp only [heapSet, List.length_set, List.length_append, List.length_cons, List.length_nil]; omega)
                    | (split at hok <;>
                        (simp only [Except.ok.injEq, Prod.mk.injEq] at hok; rw [← hok.2]; simp only [heapSet, List.length_set, List.length_append, List.length_cons, List.length_nil]; omega))
              · split at hok
                · rw [bind_error_reduce] at hok
                  exact absurd hok (by simp)
                · obtain ⟨w, h2, hok⟩ := bind_inv hok
                  rw [pure_eq_ok, bind_ok_reduce] at hok
                  dsimp only at hok
                  have hm := ihM _ _ _ _ _ _ h2
                  simp only [List.length_append, List.length_cons, List.length_nil]
                    at hm
                  split at hok <;>
                    split at hok <;>
                      first
                      | (simp only [Except.ok.injEq, Prod.mk.injEq] at hok; rw [← hok.2]; simp only [heapSet, List.length_set, List.length_append, List.length_cons, List.length_nil]; omega)
                      | (split at hok <;>
                          (simp only [Except.ok.injEq, Prod.mk.injEq] at hok; rw [← hok.2]; simp only [heapSet, List.length_set, List.length_append, List.length_cons, List.length_nil]; omega))
            · rw [if_neg hR] at hok
              split at hok
              · split at hok
                · simp only [Except.ok.injEq, Prod.mk.injEq] at hok
                  rw [← hok.2]
                  simp [heapSet]
                · obtain ⟨v, h1, hok⟩ := bind_inv hok
                  simp only [Except.ok.injEq, Prod.mk.injEq] at hok
                  rw [← hok.2]
                  have hm := ihP _ _ _ _ _ h1
                  simp [heapSet] at hm ⊢
                  omega
              · split at hok
                · simp only [Except.ok.injEq, Prod.mk.injEq] at hok
                  rw [← hok.2]
                  simp [heapSet]
                · obtain ⟨v, h1, hok⟩ := bind_inv hok
                  simp only [Except.ok.injEq, Prod.mk.injEq] at hok
                  rw [← hok.2]
                  have hm := ihM _ _ _ _ _ _ h1
                  simp [heapSet] at hm ⊢
                  omega
              · simp only [Except.ok.injEq, Prod.mk.injEq] at hok
                rw [← hok.2]
                simp [heapSet]
    · intro store ss st ids st₂ hok
      cases ss with
      | nil =>
        simp only [makeSchemaConcreteList, Except.ok.injEq, Prod.mk.injEq] at hok
        rw [← hok.2]
      | cons s rest =>
        simp only [makeSchemaConcreteList] at hok
        obtain ⟨⟨i1, stA⟩, h1, hok⟩ := bind_inv hok
        obtain ⟨⟨is2, stB⟩, h2, hok⟩ := bind_inv hok
        simp only [Except.ok.injEq, Prod.mk.injEq] at hok
        rw [← hok.2]
        exact le_trans (ihM _ _ _ _ _ _ h1) (ihL _ _ _ _ _ h2)
    · intro store ps st pids st₂ hok
      cases ps with
      | nil =>
        simp only [makeSchemaConcreteProps, Except.ok.injEq, Prod.mk.injEq] at hok
        rw [← hok.2]
      | cons p rest =>
        simp only [makeSchemaConcreteProps] at hok
        obtain ⟨⟨i1, stA⟩, h1, hok⟩ := bind_inv hok
        obtain ⟨⟨is2, stB⟩, h2, hok⟩ := bind_inv hok
        simp only [Except.ok.injEq, Prod.mk.injEq] at hok
        rw [← hok.2]
        exact le_trans (ihM _ _ _ _ _ _ h1) (ihP _ _ _ _ _ h2)


theorem assocGet_assocSet {a : Type} (l : List (String × a)) (k k₂ : String) (v : a) :
    assocGet (assocSet l k v) k₂ = if k = k₂ then some v else assocGet l k₂ := by
  induction l with
  | nil => simp [assocGet, assocSet]
  | cons e rest ih =>
    obtain ⟨k₀, v₀⟩ := e
    by_cases h0 : k₀ = k
    · subst h0
      simp only [assocSet, if_pos rfl, assocGet]
      by_cases h2 : k₀ = k₂
      · subst h2
        simp [assocGet]
      · simp [assocGet, h2]
    · simp only [assocSet, if_neg h0, assocGet]
      by_cases h2 : k₀ = k₂
      · subst h2
        rw [if_pos rfl, if_neg ?_, if_pos rfl]
        intro hkk
        exact h0 hkk.symm
      · rw [if_neg h2, if_neg h2, ih]

theorem foldl_assocSet_get {a : Type} (l acc : List (String × a)) (k : String) :
    assocGet (l.foldl (fun b e => assocSet b e.1 e.2) acc) k =
      match assocGetLast l k with
      | some v => some v
      | none => assocGet acc k := by
  induction l generalizing acc with
  | nil => simp [assocGetLast]
  | cons e rest ih =>
    simp only [List.foldl_cons, assocGetLast]
    rw [ih]
    cases hrest : assocGetLast rest k with
    | some v => rfl
    | none =>
      simp only []
      rw [assocGet_assocSet]
      by_cases h : e.1 = k
      · rw [if_pos h, if_pos h]
      · rw [if_neg h, if_neg h]

theorem jsAssignProps_get_aux (ls : List (List (String × Nat)))
    (acc : List (String × Nat)) (k : String) :
    assocGet (ls.foldl (fun b l => l.foldl (fun b₂ e => assocSet b₂ e.1 e.2) b) acc) k =
      match mergedPropLookup ls k with
      | some v => some v
      | none => assocGet acc k := by
  induction ls generalizing acc with
  | nil => simp [mergedPropLookup]
  | cons l rest ih =>
    simp only [List.foldl_cons, mergedPropLookup]
    rw [ih]
    cases hrest : mergedPropLookup rest k with
    | some v => rfl
    | none =>
      rw [foldl_assocSet_get l acc k]
      cases assocGetLast l k <;> rfl

theorem jsAssignProps_get (ls : List (List (String × Nat))) (k : String) :
    assocGet (jsAssignProps ls) k = mergedPropLookup ls k := by
  rw [jsAssignProps, jsAssignProps_get_aux]
  cases mergedPropLookup ls k <;> rfl

theorem heapGet_heapSet_self (h : List CNode) (i : Nat) (n : CNode)
    (hi : i < h.length) : heapGet (heapSet h i n) i = n := by
  simp [heapGet, heapSet, List.getElem?_set, hi]


/-- Claim C2: for an allOf schema whose branch list concretizes successfully
(with every branch resolving to a concrete object schema), makeSchemaConcrete
succeeds with a concrete object node whose required list is the concatenation
of the required lists of the branches in branch order and whose properties are
the key-wise merge of the properties of the branches with a later branch
winning on key collision. -/
theorem allOf_merges_required_and_properties
    (store : SchemaStore) (fuel : Nat) (schema : RSchema) (branches : List RSchema)
    (st : MState) (ids : List Nat) (st₃ : MState)
    (hallOf : schema.allOf = some branches)
    (hlist : makeSchemaConcreteList store fuel branches
      { heap := st.heap ++ [{}], cache := st.cache } = .ok (ids, st₃))
    ( _hobj : ∀ j ∈ ids, (heapGet st₃.heap j).type = some "object") :
    ∃ st₄,
      makeSchemaConcrete store (fuel + 1) schema none st = .ok (st.heap.length, st₄) ∧
      (heapGet st₄.heap st.heap.length).type = some "object" ∧
      ((heapGet st₄.heap st.heap.length).required).getD [] =
        (ids.map (fun j => ((heapGet st₃.heap j).required).getD [])).flatten ∧
      ∀ k, assocGet (((heapGet st₄.heap st.heap.length).properties).getD []) k =
        mergedPropLookup (ids.map (fun j => ((heapGet st₃.heap j).properties).getD []))
          k := by
  have hlt : st.heap.length < st₃.heap.length := by
    have hm := (makeSchemaConcrete_heap_mono fuel).2.1 _ _ _ _ _ hlist
    simp at hm
    omega
  refine ⟨{ st₃ with
              heap := heapSet st₃.heap st.heap.length
                        { heapGet st₃.heap st.heap.length with
                          type := some "object",
                          required :=
                            if ((ids.map (fun j =>
                                  ((heapGet st₃.heap j).required).getD [])).flatten).isEmpty
                            then none
                            else some ((ids.map (fun j =>
                                  ((heapGet st₃.heap j).required).getD [])).flatten),
                          properties :=
                            if (jsAssignProps (ids.map (fun j =>
                                  ((heapGet st₃.heap j).properties).getD []))).isEmpty
                            then none
                            else some (jsAssignProps (ids.map (fun j =>
                                  ((heapGet st₃.heap j).properties).getD []))) } },
    ?_, ?_, ?_, ?_⟩
  · rw [makeSchemaConcrete]
    simp only [allocNode, hallOf, Option.isSome_some, Option.getD_some]
    rw [if_pos trivial, hlist, bind_ok_reduce]
  · dsimp only
    rw [heapGet_heapSet_self _ _ _ hlt]
  · dsimp only
    rw [heapGet_heapSet_self _ _ _ hlt]
    split
    · rename_i hE
      rw [List.isEmpty_iff.mp hE]
      rfl
    · rfl
  · intro k
    dsimp only
    rw [heapGet_heapSet_self _ _ _ hlt]
    split <;>
      (split
       · rename_i hE
         rw [← jsAssignProps_get, List.isEmpty_iff.mp hE]
         rfl
       · exact jsAssignProps_get _ k)


/-- Witness for C2 at a two-branch allOf composition with one property. -/
theorem allOf_merges_required_and_properties_witness :
    ∃ st₄,
      makeSchemaConcrete [] (5 + 1)
          (RSchema.mk
            (some [RSchema.mk none none none (some "object") (some ["a"]) none none none
                     none none,
                   RSchema.mk none none none (some "object") (some ["b"])
                     (some [("p", RSchema.mk none none none (some "string") none none
                        none none none none)]) none none none none])
            none none none none none none none none none)
          none {} = .ok ((0 : Nat), st₄) ∧
      (heapGet st₄.heap 0).type = some "object" ∧
      ((heapGet st₄.heap 0).required).getD [] =
        (([1, 2] : List Nat).map (fun j =>
          ((heapGet [({} : CNode),
                     { type := some "object", required := some ["a"] },
                     { type := some "object", required := some ["b"],
                       properties := some [("p", 3)] },
                     { type := some "string" }] j).required).getD [])).flatten ∧
      ∀ k, assocGet (((heapGet st₄.heap 0).properties).getD []) k =
        mergedPropLookup (([1, 2] : List Nat).map (fun j =>
          ((heapGet [({} : CNode),
                     { type := some "object", required := some ["a"] },
                     { type := some "object", required := some ["b"],
                       properties := some [("p", 3)] },
                     { type := some "string" }] j).properties).getD [])) k :=
  allOf_merges_required_and_properties [] 5
    (RSchema.mk
      (some [RSchema.mk none none none (some "object") (some ["a"]) none none none
               none none,
             RSchema.mk none none none (some "object") (some ["b"])
               (some [("p", RSchema.mk none none none (some "string") none none
                  none none none none)]) none none none none])
      none none none none none none none none none)
    [RSchema.mk none none none (some "object") (some ["a"]) none none none none none,
     RSchema.mk none none none (some "object") (some ["b"])
       (some [("p", RSchema.mk none none none (some "string") none none none none
          none none)]) none none none none]
    {} [1, 2]
    { heap := [({} : CNode),
               { type := some "object", required := some ["a"] },
               { type := some "object", required := some ["b"],
                 properties := some [("p", 3)] },
               { type := some "string" }],
      cache := [] }
    rfl rfl (by decide)


/-- Resolving the registered bare self-$ref with its own cache key marked as
the key to store exhausts any recursion budget: the reuse guard requires the
cached key to differ from the key being stored, so the $ref branch re-enters
itself with the same key at every step. -/
theorem makeSchemaConcrete_bare_self_ref_loop (fuel : Nat) :
    ∀ st, makeSchemaConcrete
        [(["P"], RSchema.mk none none (some "/P") none none none none none none none)]
        fuel
        (RSchema.mk none none (some "/P") none none none none none none none)
        (some "/P|undefined|undefined|undefined") st = .error .outOfFuel := by
  induction fuel with
  | zero => intro st; rfl
  | succ fuel ih =>
    intro st
    rw [makeSchemaConcrete]
    simp only [allocNode]
    simp [RSchema.allOf, RSchema.oneOf, RSchema.ref, RSchema.entityType,
      RSchema.foreignKey, RSchema.storage, optStrTruthy, cachedSchemaKeyOf, jsShowOpt,
      trimStartSlashes, getSchema, ih, bind_error_reduce]
    have hsplit : splitOnChar "P" '/' = ["P"] := rfl
    simp [hsplit, ih, bind_error_reduce]


/-- Counterexample to claim C1: a registered bare self-$ref. The Schema Store
maps path P to the schema that is nothing but a $ref back to /P, so the input
$ref /P has every $ref target registered, yet concretization recurs forever:
the memo entry registered for the $ref cache key is ignored because the reuse
guard also requires the cached key to differ from the key currently being
stored, which can never hold while resolving the same bare $ref again. -/
theorem makeSchemaConcrete_registered_self_ref_diverges :
    ¬ ConcretizationTerminates
        [(["P"], RSchema.mk none none (some "/P") none none none none none none none)]
        (RSchema.mk none none (some "/P") none none none none none none none) := by
  rintro ⟨fuel, h⟩
  apply h
  cases fuel with
  | zero => rfl
  | succ fuel =>
    rw [makeSchemaConcrete]
    simp only [allocNode]
    simp [RSchema.allOf, RSchema.oneOf, RSchema.ref, RSchema.entityType,
      RSchema.foreignKey, RSchema.storage, optStrTruthy, cachedSchemaKeyOf, jsShowOpt,
      trimStartSlashes, getSchema, assocGet, bind_error_reduce]
    have hsplit : splitOnChar "P" '/' = ["P"] := rfl
    simp [hsplit, makeSchemaConcrete_bare_self_ref_loop, bind_error_reduce]

/-- Claim C1 (amended): for the canonical self-referential $ref chain — the
Schema Store maps path P to an object schema whose child property is a $ref
back to /P — concretizing the $ref terminates and produces a concrete schema
heap that is a cyclic object graph: the memo node registered for the $ref
cache key before recursion (node 1) is reachable from the returned root node
and reaches itself through its child property. -/
theorem makeSchemaConcrete_self_ref_cycle :
    makeSchemaConcrete
        [(["P"], RSchema.mk none none none (some "object") none
          (some [("child",
            RSchema.mk none none (some "/P") none none none none none none none)])
          none none none none)]
        8
        (RSchema.mk none none (some "/P") none none none none none none none)
        none {} =
      .ok (0,
        { heap := [{ type := some "object",
                     properties := some [("child", 1), ("$ref", 3)] },
                   { type := some "object", properties := some [("child", 1)] },
                   {},
                   { type := some "string" }],
          cache := [("/P|undefined|undefined|undefined", 1)] }) ∧
    heapCyclic [({ type := some "object",
                   properties := some [("child", 1), ("$ref", 3)] } : CNode),
                { type := some "object", properties := some [("child", 1)] },
                {},
                { type := some "string" }] = true ∧
    reachesWithin [({ type := some "object",
                      properties := some [("child", 1), ("$ref", 3)] } : CNode),
                   { type := some "object", properties := some [("child", 1)] },
                   {},
                   { type := some "string" }] 4 0 1 = true :=
  ⟨rfl, rfl, rfl⟩

end Docorm
